import Mathlib

/-!
# Verification of the supplemental-pay orchestration core

Shallow embedding of the query-routing and agent-run lifecycle manager of the
`supplemental-pay-agent` repository, together with proofs and refutations of the
frozen claims about it.

Embedded source files:
* `src/orchestration/azure_agent_orchestrator.py`
  (`IntelligentOrchestratorAgent` — the query router; `AzureAgentOrchestrator._run_agent`
  and `_run_agent_via_sdk` — the run executor).
* `src/orchestration/azure_agent_definitions.py`
  (`AzureAgentDefinitions` — the agent registry: `load_agent_ids`, `save_agent_ids`,
  `_remove_agent_ids_file`, `get_existing_agents`, `deploy_agents`).

Modelling conventions:
* Python strings are `List Char` (`PyStr`) where character-level operations matter
  (the router), and `String` elsewhere.
* Remote SDK/API calls are modelled as `Except String _` values supplied by an
  environment record; a `.error` models the call raising an exception.
* Python dictionaries are insertion-ordered association lists; every mutation site
  in the embedded code either writes a fresh key or replaces an existing one, which
  the list operations mirror.
* JSON values returned by `json.loads` are modelled by an inductive `JVal`;
  `json.loads` itself is external library code and is passed in as an abstract
  `decode` function (it yields an object or fails, which is what the code relies on).
-/

set_option maxHeartbeats 1000000

namespace SupPay

/-! ## Association-list dictionary operations (Python `dict` with insertion order) -/

/-- First-match lookup, Python `d[k]` / `d.get(k)`. -/
def lookupD {K V : Type} [DecidableEq K] : List (K × V) → K → Option V
  | [], _ => none
  | p :: ps, k => if p.1 = k then some p.2 else lookupD ps k

/-- Python `k in d`. -/
def containsD {K V : Type} [DecidableEq K] (d : List (K × V)) (k : K) : Bool :=
  (lookupD d k).isSome

/-- Python `d[k] = v`: replace the value at an existing key in place (dicts keep the
original insertion position), otherwise append. -/
def setD {K V : Type} [DecidableEq K] : List (K × V) → K → V → List (K × V)
  | [], k, v => [(k, v)]
  | p :: ps, k, v => if p.1 = k then (k, v) :: ps else p :: setD ps k v

/-- Keys of a dictionary, in insertion order. -/
def keysD {K V : Type} (d : List (K × V)) : List K := d.map Prod.fst

@[simp] theorem lookupD_nil {K V : Type} [DecidableEq K] (k : K) :
    lookupD ([] : List (K × V)) k = none := rfl

@[simp] theorem lookupD_cons {K V : Type} [DecidableEq K] (p : K × V) (ps : List (K × V)) (k : K) :
    lookupD (p :: ps) k = if p.1 = k then some p.2 else lookupD ps k := rfl

theorem lookupD_append_of_none {K V : Type} [DecidableEq K]
    {d : List (K × V)} {k : K} (h : lookupD d k = none) (d' : List (K × V)) :
    lookupD (d ++ d') k = lookupD d' k := by
  induction d with
  | nil => rfl
  | cons p ps ih =>
    by_cases hk : p.1 = k
    · simp [lookupD, hk] at h
    · simp [lookupD, hk] at h ⊢
      exact ih h

theorem lookupD_eq_none_of_sublist {K V : Type} [DecidableEq K]
    {d d' : List (K × V)} {k : K} (hs : d'.Sublist d) (h : lookupD d k = none) :
    lookupD d' k = none := by
  induction hs with
  | slnil => rfl
  | cons p _ ih =>
    rename_i l₁ l₂ _
    by_cases hk : p.1 = k
    · simp [lookupD, hk] at h
    · simp [lookupD, hk] at h
      exact ih h
  | cons₂ p _ ih =>
    rename_i l₁ l₂ _
    by_cases hk : p.1 = k
    · simp [lookupD, hk] at h
    · simp [lookupD, hk] at h ⊢
      exact ih h

theorem lookupD_setD_self {K V : Type} [DecidableEq K] (d : List (K × V)) (k : K) (v : V) :
    lookupD (setD d k v) k = some v := by
  induction d with
  | nil => simp [setD, lookupD]
  | cons p ps ih =>
    by_cases hk : p.1 = k
    · simp [setD, hk, lookupD]
    · simp [setD, hk, lookupD, ih]

theorem lookupD_setD_ne {K V : Type} [DecidableEq K] (d : List (K × V)) (k k' : K) (v : V)
    (h : k ≠ k') : lookupD (setD d k v) k' = lookupD d k' := by
  induction d with
  | nil => simp [setD, lookupD, h]
  | cons p ps ih =>
    by_cases hk : p.1 = k
    · subst hk
      simp [setD, lookupD, h]
    · simp [setD, hk, lookupD, ih]

/-- `isOk` test on `Except`, modelling "the call did not raise". -/
def exOk {ε α : Type} : Except ε α → Bool
  | .ok _ => true
  | .error _ => false

@[simp] theorem exOk_ok {ε α : Type} (a : α) : exOk (Except.ok a : Except ε α) = true := rfl

@[simp] theorem exOk_error {ε α : Type} (e : ε) : exOk (Except.error e : Except ε α) = false := rfl

end SupPay

namespace SupPay

/-! ## QueryRouter: cache-key normalization
(`IntelligentOrchestratorAgent._get_query_cache_key`, orchestrator lines 181-188)

`re.sub(r'[^\w\s]', '', query.lower())`, then `re.sub(r'\s+', ' ', ...)`, then
`.strip()`, then `[:100]`. Python strings are modelled as `List Char`; the regex
classes `\w` / `\s` are modelled over their ASCII members. -/

/-- Python strings at character level. -/
abbrev PyStr := List Char

/-- Python `str.lower()` (per-character, as for ASCII text). -/
def pyLower (s : PyStr) : PyStr := s.map Char.toLower

/-- Membership in the regex class `\w` (ASCII: letters, digits, underscore). -/
def isWordChar (c : Char) : Bool := c.isAlphanum || c = '_'

/-- Membership in the regex class `\s` (ASCII whitespace). -/
def isSpaceChar (c : Char) : Bool :=
  c = ' ' || c = '\t' || c = '\n' || c = '\r' || c = '\x0b' || c = '\x0c'

/-- A `\w`-or-`\s` character, i.e. one that survives `re.sub(r'[^\w\s]', '', ...)`. -/
def keepChar (c : Char) : Bool := isWordChar c || isSpaceChar c

/-- `re.sub(r'\s+', ' ', ...)`: each maximal whitespace run becomes a single space.
The flag records a pending whitespace run whose single `' '` has not been emitted yet. -/
def collapseAux : Bool → List Char → List Char
  | pending, [] => if pending then [' '] else []
  | pending, c :: cs =>
    if isSpaceChar c then collapseAux true cs
    else if pending then ' ' :: c :: collapseAux false cs
    else c :: collapseAux false cs

/-- Whitespace-run collapsing, `re.sub(r'\s+', ' ', s)`. -/
def collapseWs (l : List Char) : List Char := collapseAux false l

/-- Left part of Python `str.strip()`. -/
def ltrimSp (l : List Char) : List Char := l.dropWhile isSpaceChar

/-- Right part of Python `str.strip()`. -/
def rtrimSp : List Char → List Char
  | [] => []
  | c :: cs => if (rtrimSp cs).isEmpty && isSpaceChar c then [] else c :: rtrimSp cs

/-- Python `str.strip()` over `\s`. -/
def trimSp (l : List Char) : List Char := rtrimSp (ltrimSp l)

/-- `_get_query_cache_key`: lowercase, drop non-word/non-space characters, collapse
whitespace runs, strip, truncate to 100 characters. -/
def queryCacheKey (q : PyStr) : PyStr :=
  (trimSp (collapseWs ((pyLower q).filter keepChar))).take 100

/-- The whitespace-delimited words of a character list (empty words dropped).
This is the specification-side tokenization used to state "two queries differ only
in case, punctuation and whitespace runs": their token lists coincide. -/
def wordsBy : List Char → List (List Char)
  | [] => []
  | c :: cs =>
    if isSpaceChar c then wordsBy cs
    else
      match cs, wordsBy cs with
      | [], _ => [[c]]
      | c' :: _, rest =>
        if isSpaceChar c' then [c] :: rest
        else
          match rest with
          | w :: ws => (c :: w) :: ws
          | [] => [[c]]

/-- Join words with single spaces. -/
def joinWords : List (List Char) → List Char
  | [] => []
  | w :: ws =>
    match ws with
    | [] => w
    | _ :: _ => w ++ ' ' :: joinWords ws

/-- The token sequence a query is reduced to by the cache-key pipeline. -/
def tokensOf (q : PyStr) : List (List Char) :=
  wordsBy ((pyLower q).filter keepChar)

end SupPay

namespace SupPay

/-! ### Cache-key pipeline lemmas -/

theorem collapseAux_true_eq (l : List Char) :
    collapseAux true l = ' ' :: collapseAux false (l.dropWhile isSpaceChar) := by
  induction l with
  | nil => rfl
  | cons c cs ih =>
    by_cases hc : isSpaceChar c
    · simp [collapseAux, hc, List.dropWhile, ih]
    · simp [collapseAux, hc, List.dropWhile]

theorem collapseAux_false_nonspace (c : Char) (cs : List Char) (hc : isSpaceChar c = false) :
    collapseAux false (c :: cs) = c :: collapseAux false cs := by
  simp [collapseAux, hc]

theorem rtrimSp_cons_nonspace (c : Char) (cs : List Char) (hc : isSpaceChar c = false) :
    rtrimSp (c :: cs) = c :: rtrimSp cs := by
  simp [rtrimSp, hc]

theorem dropWhile_space_head (l : List Char) (c : Char)
    (h : (l.dropWhile isSpaceChar).head? = some c) : isSpaceChar c = false := by
  induction l with
  | nil => simp [List.dropWhile] at h
  | cons x xs ih =>
    by_cases hx : isSpaceChar x
    · simp [List.dropWhile, hx] at h
      exact ih h
    · simp [List.dropWhile, hx] at h
      subst h
      simpa using hx

theorem wordsBy_dropWhile (l : List Char) :
    wordsBy (l.dropWhile isSpaceChar) = wordsBy l := by
  induction l with
  | nil => rfl
  | cons c cs ih =>
    by_cases hc : isSpaceChar c
    · simp [List.dropWhile, hc, wordsBy, ih]
    · simp [List.dropWhile, hc]

theorem wordsBy_cons_shape (c : Char) (cs : List Char) (hc : isSpaceChar c = false) :
    ∃ w ws, wordsBy (c :: cs) = (c :: w) :: ws := by
  match cs with
  | [] => exact ⟨[], [], by simp [wordsBy, hc]⟩
  | c' :: cs' =>
    by_cases hc' : isSpaceChar c'
    · exact ⟨[], wordsBy (c' :: cs'), by simp [wordsBy, hc, hc']⟩
    · have ⟨w, ws, hw⟩ := wordsBy_cons_shape c' cs' (by simpa using hc')
      refine ⟨c' :: w, ws, ?_⟩
      rw [wordsBy.eq_def]
      simp [hc, hc', hw]

theorem joinWords_cons_cons (c : Char) (w : List Char) (ws : List (List Char)) :
    joinWords ((c :: w) :: ws) = c :: joinWords (w :: ws) := by
  match ws with
  | [] => rfl
  | _ :: _ => simp [joinWords]

theorem joinWords_wordsBy_head (c : Char) (cs : List Char) (hc : isSpaceChar c = false) :
    ∃ t, joinWords (wordsBy (c :: cs)) = c :: t := by
  obtain ⟨w, ws, hw⟩ := wordsBy_cons_shape c cs hc
  exact ⟨joinWords (w :: ws), by rw [hw, joinWords_cons_cons]⟩

theorem ltrim_collapseAux_false (l : List Char) :
    ltrimSp (collapseAux false l) = collapseAux false (ltrimSp l) := by
  induction l with
  | nil => rfl
  | cons c cs ih =>
    by_cases hc : isSpaceChar c
    · have h1 : collapseAux false (c :: cs) = collapseAux true cs := by
        simp [collapseAux, hc]
      rw [h1, collapseAux_true_eq]
      have h2 : ltrimSp (c :: cs) = ltrimSp cs := by
        simp [ltrimSp, List.dropWhile, hc]
      rw [h2]
      have h3 : ltrimSp (' ' :: collapseAux false (cs.dropWhile isSpaceChar)) =
          ltrimSp (collapseAux false (cs.dropWhile isSpaceChar)) := by
        simp [ltrimSp, List.dropWhile, isSpaceChar]
      rw [h3]
      have h4 : ltrimSp (collapseAux false (cs.dropWhile isSpaceChar)) =
          collapseAux false (cs.dropWhile isSpaceChar) := by
        match hd : cs.dropWhile isSpaceChar with
        | [] => rfl
        | d :: ds =>
          have hdns : isSpaceChar d = false := by
            apply dropWhile_space_head cs
            rw [hd]; rfl
          rw [collapseAux_false_nonspace d ds hdns]
          simp [ltrimSp, List.dropWhile, hdns]
      rw [h4]
      have h5 : ltrimSp cs = cs.dropWhile isSpaceChar := rfl
      rw [h5]
    · have hc' : isSpaceChar c = false := by simpa using hc
      rw [collapseAux_false_nonspace c cs hc']
      have h1 : ltrimSp (c :: collapseAux false cs) = c :: collapseAux false cs := by
        simp [ltrimSp, List.dropWhile, hc']
      have h2 : ltrimSp (c :: cs) = c :: cs := by
        simp [ltrimSp, List.dropWhile, hc']
      rw [h1, h2, collapseAux_false_nonspace c cs hc']

theorem length_dropWhile_le (p : Char → Bool) (l : List Char) :
    (l.dropWhile p).length ≤ l.length := by
  induction l with
  | nil => simp [List.dropWhile]
  | cons c cs ih =>
    by_cases hc : p c
    · simp only [List.dropWhile, hc]
      exact Nat.le_succ_of_le ih
    · simp [List.dropWhile, hc]

theorem rtrim_collapse_bounded : ∀ (n : Nat) (l : List Char), l.length ≤ n →
    (∀ c, l.head? = some c → isSpaceChar c = false) →
    rtrimSp (collapseAux false l) = joinWords (wordsBy l) := by
  intro n
  induction n with
  | zero =>
    intro l hl _
    have : l = [] := List.length_eq_zero.mp (Nat.le_zero.mp hl)
    subst this
    rfl
  | succ n ih =>
    intro l hl hhead
    match l with
    | [] => rfl
    | c :: cs =>
      have hc : isSpaceChar c = false := hhead c rfl
      rw [collapseAux_false_nonspace c cs hc, rtrimSp_cons_nonspace _ _ hc]
      match cs with
      | [] =>
        simp [rtrimSp, collapseAux, wordsBy, hc, joinWords]
      | c' :: cs' =>
        by_cases hc' : isSpaceChar c'
        · -- `cs` starts a whitespace run: the current word is exactly `[c]`.
          have h1 : collapseAux false (c' :: cs') = collapseAux true cs' := by
            simp [collapseAux, hc']
          rw [h1, collapseAux_true_eq]
          have hwl : wordsBy (c :: c' :: cs') = [c] :: wordsBy (c' :: cs') := by
            rw [wordsBy.eq_def]
            simp [hc, hc']
          have hwcs : wordsBy (c' :: cs') = wordsBy (cs'.dropWhile isSpaceChar) := by
            rw [wordsBy_dropWhile cs']
            rw [wordsBy.eq_def]
            simp [hc']
          match hd : cs'.dropWhile isSpaceChar with
          | [] =>
            have hthis : rtrimSp (' ' :: collapseAux false ([] : List Char)) = [] := by
              simp [collapseAux, rtrimSp, isSpaceChar]
            rw [hthis, hwl, hwcs, hd]
            simp [wordsBy, joinWords]
          | d :: ds =>
            have hdns : isSpaceChar d = false := by
              apply dropWhile_space_head cs'
              rw [hd]; rfl
            have hlen : (d :: ds).length ≤ n := by
              have h1 : (cs'.dropWhile isSpaceChar).length ≤ cs'.length :=
                length_dropWhile_le isSpaceChar cs'
              rw [hd] at h1
              have h2 : cs'.length + 2 ≤ n + 1 := by simpa using hl
              omega
            have hih := ih (d :: ds) hlen (by intro x hx; cases hx; exact hdns)
            obtain ⟨t, ht⟩ := joinWords_wordsBy_head d ds hdns
            have hne : rtrimSp (collapseAux false (d :: ds)) ≠ [] := by
              rw [hih, ht]; simp
            have hemp : (rtrimSp (collapseAux false (d :: ds))).isEmpty = false := by
              cases hrt : rtrimSp (collapseAux false (d :: ds))
              · exact absurd hrt hne
              · rfl
            have hstep : rtrimSp (' ' :: collapseAux false (d :: ds)) =
                ' ' :: rtrimSp (collapseAux false (d :: ds)) := by
              simp [rtrimSp, hemp]
            rw [hstep, hih, hwl, hwcs, hd]
            obtain ⟨w, ws, hw⟩ := wordsBy_cons_shape d ds hdns
            rw [hw]
            simp [joinWords]
        · -- `cs` continues the current word.
          have hc'f : isSpaceChar c' = false := by simpa using hc'
          have hlen : (c' :: cs').length ≤ n := by simpa using hl
          have hih := ih (c' :: cs') hlen (by intro x hx; cases hx; exact hc'f)
          rw [hih]
          obtain ⟨w, ws, hw⟩ := wordsBy_cons_shape c' cs' hc'f
          have hwl : wordsBy (c :: c' :: cs') = (c :: c' :: w) :: ws := by
            rw [wordsBy.eq_def]
            simp [hc, hc', hw]
          rw [hwl, hw, joinWords_cons_cons c (c' :: w) ws, joinWords_cons_cons c' w ws]

theorem trim_collapse_eq_joinWords (l : List Char) :
    trimSp (collapseWs l) = joinWords (wordsBy l) := by
  rw [trimSp, collapseWs, ltrim_collapseAux_false]
  rw [rtrim_collapse_bounded (ltrimSp l).length (ltrimSp l) le_rfl]
  · rw [show ltrimSp l = l.dropWhile isSpaceChar from rfl, wordsBy_dropWhile]
  · intro c hc
    exact dropWhile_space_head l c hc

/-- The cache key is the (truncated) space-joined token sequence; hence it only
depends on the tokens. -/
theorem queryCacheKey_eq_joinWords (q : PyStr) :
    queryCacheKey q = (joinWords (tokensOf q)).take 100 := by
  rw [queryCacheKey, tokensOf, trim_collapse_eq_joinWords]

end SupPay

namespace SupPay

/-! ## QueryRouter: `IntelligentOrchestratorAgent` (orchestrator lines 31-298)

The LLM call (`kernel.invoke`) is an external effect, supplied as a value
`llm : Except String PyStr` (`.error` = the awaited call raised; `.ok text` = the
stringified model output).  `json.loads` is the external JSON library, supplied as
`decode : PyStr → Option JObj` (`none` = `JSONDecodeError`; on a string starting
with a brace a successful parse is an object). -/

/-- Python substring test `sub in hay` (contiguous occurrence; the empty string
occurs in everything). -/
def containsSub (hay sub : List Char) : Bool :=
  match hay with
  | [] => sub.isEmpty
  | _ :: t => startsWith hay sub || containsSub t sub
where
  /-- Does the first list start with the second? -/
  startsWith : List Char → List Char → Bool
  | _, [] => true
  | [], _ :: _ => false
  | a :: as, b :: bs => a = b && startsWith as bs

/-- A parsed JSON value. -/
inductive JVal where
  | null : JVal
  | bool : Bool → JVal
  | num : ℚ → JVal
  | str : PyStr → JVal
  | arr : List JVal → JVal
  | obj : List (PyStr × JVal) → JVal

/-- A parsed JSON object / Python dict with JSON values. -/
abbrev JObj := List (PyStr × JVal)

/-- Python truthiness test `not x` on a JSON-shaped value. -/
def jFalsy : JVal → Bool
  | .null => true
  | .bool b => !b
  | .num q => decide (q = 0)
  | .str s => s.isEmpty
  | .arr xs => xs.isEmpty
  | .obj fs => fs.isEmpty

/-- `self.agent_name_mapping` (orchestrator lines 63-70), in insertion order. -/
def agentNameMapping : List (PyStr × PyStr) :=
  [("policy extraction agent".toList, "policy_extraction_agent".toList),
   ("pay calculation agent".toList, "pay_calculation_agent".toList),
   ("analytics agent".toList, "analytics_agent".toList),
   ("policy_extraction_agent".toList, "policy_extraction_agent".toList),
   ("pay_calculation_agent".toList, "pay_calculation_agent".toList),
   ("analytics_agent".toList, "analytics_agent".toList)]

/-- Keyword lists of `self.agent_capabilities` (orchestrator lines 47-60),
in insertion order (only the keyword lists matter to the routing logic). -/
def agentCapabilities : List (PyStr × List PyStr) :=
  [("policy_extraction_agent".toList,
    ["policy".toList, "policies".toList, "rules".toList, "guidelines".toList,
     "standby".toList, "callout".toList, "eligibility".toList]),
   ("pay_calculation_agent".toList,
    ["calculate".toList, "calculation".toList, "pay".toList, "payment".toList,
     "overtime".toList, "hours".toList, "rate".toList]),
   ("analytics_agent".toList,
    ["analyze".toList, "analysis".toList, "trend".toList, "pattern".toList,
     "report".toList, "statistics".toList, "data".toList])]

/-- The known role identifiers (keys of `agent_capabilities`). -/
def knownRoles : List PyStr :=
  ["policy_extraction_agent".toList, "pay_calculation_agent".toList,
   "analytics_agent".toList]

/-- `_normalize_agent_name` (orchestrator lines 118-145) applied to the raw JSON
value found under `primary_agent` / in `secondary_agents`.  A falsy value takes the
`if not agent_name` default; a truthy non-string raises `AttributeError` at
`agent_name.lower()` (modelled as `.error`); a non-empty string is lowercased, then
looked up exactly in the mapping, then by two-sided substring containment against
the mapping keys in insertion order; an unmappable name is returned unchanged. -/
def normalizeAgentName (v : JVal) : Except String PyStr :=
  if jFalsy v then .ok "policy_extraction_agent".toList
  else
    match v with
    | .str s =>
      let n := pyLower s
      match lookupD agentNameMapping n with
      | some canon => .ok canon
      | none =>
        match agentNameMapping.find? (fun p => containsSub n p.1 || containsSub p.1 n) with
        | some p => .ok p.2
        | none => .ok s
    | _ => .error "AttributeError: lower"

/-- `_get_fallback_agent_by_keywords` (orchestrator lines 147-179): count the
occurrences of each role keyword list in the lowercased query; the first role (in
insertion order) with the maximal nonzero score wins, else the policy role. -/
def getFallbackAgentByKeywords (q : PyStr) : PyStr :=
  let ql := pyLower q
  let scores := agentCapabilities.map
    (fun p => (p.1, (p.2.filter (fun k => containsSub ql (pyLower k))).length))
  let maxScore := (scores.map Prod.snd).foldr max 0
  if 0 < maxScore then
    match scores.find? (fun p => p.2 = maxScore) with
    | some p => p.1
    | none => "policy_extraction_agent".toList
  else "policy_extraction_agent".toList

/-- Index of the first occurrence of `c`, Python `str.find` (as `Option`). -/
def findCharIdx (l : List Char) (c : Char) : Option Nat :=
  match l with
  | [] => none
  | x :: xs =>
    if x = c then some 0
    else match findCharIdx xs c with
      | some i => some (i + 1)
      | none => none

/-- Index of the last occurrence of `c`, Python `str.rfind` (as `Option`). -/
def rfindCharIdx (l : List Char) (c : Char) : Option Nat :=
  match l with
  | [] => none
  | x :: xs =>
    match rfindCharIdx xs c with
    | some i => some (i + 1)
    | none => if x = c then some 0 else none

/-- The keyword-fallback routing dictionary built when the LLM response carries no
JSON (orchestrator lines 243-251 and 252-260); `ctx` is the branch's context text
and the fixed confidence is 0.4. -/
def fallbackInfo (q : PyStr) (ctx : PyStr) : JObj :=
  [("primary_agent".toList, .str (getFallbackAgentByKeywords q)),
   ("confidence".toList, .num (4/10)),
   ("secondary_agents".toList, .arr []),
   ("context".toList, .str ctx)]

/-- The keyword-fallback routing dictionary built by the outer exception handler
(orchestrator lines 289-298), confidence 0.3. -/
def errorFallbackInfo (q : PyStr) (e : String) : JObj :=
  [("primary_agent".toList, .str (getFallbackAgentByKeywords q)),
   ("confidence".toList, .num (3/10)),
   ("secondary_agents".toList, .arr []),
   ("context".toList,
    .str (("Error in query analysis: " ++ e ++ ", using keyword-based fallback").toList))]

/-- The JSON carve-out of `analyze_query` (orchestrator lines 233-260): find the
first `\x7b` and the last `\x7d`, parse the enclosed substring when the bounds are
sensible, and fall back to keyword routing (confidence 0.4) when bounds are
missing or parsing fails. -/
def carveRoutingInfo (text : PyStr) (decode : PyStr → Option JObj) (q : PyStr) : JObj :=
  match findCharIdx text (Char.ofNat 123), rfindCharIdx text (Char.ofNat 125) with
  | some s, some e =>
    if s < e then
      match decode ((text.drop s).take (e + 1 - s)) with
      | some o => o
      | none => fallbackInfo q "Fallback routing used due to JSON parse error".toList
    else fallbackInfo q "Fallback routing used due to missing JSON in response".toList
  | _, _ => fallbackInfo q "Fallback routing used due to missing JSON in response".toList

/-- The normalization steps of `analyze_query` (orchestrator lines 262-276):
normalize `primary_agent` (keyword fallback when the key is absent) and, when
`secondary_agents` is a list, normalize each entry.  A `.error` is an exception
raised inside the `try` (e.g. `AttributeError` from a non-string name). -/
def normalizeRoutingInfo (q : PyStr) (routingInfo : JObj) : Except String JObj := do
  let info1 ←
    match lookupD routingInfo "primary_agent".toList with
    | some v => do
      let n ← normalizeAgentName v
      pure (setD routingInfo "primary_agent".toList (.str n))
    | none =>
      pure (setD routingInfo "primary_agent".toList
        (.str (getFallbackAgentByKeywords q)))
  match lookupD info1 "secondary_agents".toList with
  | some (.arr xs) => do
    let ns ← xs.mapM normalizeAgentName
    pure (setD info1 "secondary_agents".toList (.arr (ns.map .str)))
  | _ => pure info1

/-- The body of the `try` block of `analyze_query` (orchestrator lines 216-287)
after the LLM call returned `text`: JSON carve-out, then normalization. -/
def tryAnalyze (text : PyStr) (decode : PyStr → Option JObj) (q : PyStr) :
    Except String JObj :=
  normalizeRoutingInfo q (carveRoutingInfo text decode q)

/-- The query cache, `self.query_cache` (insertion-ordered). -/
abbrev QCache := List (PyStr × JObj)

/-- `_manage_cache_size` (orchestrator lines 190-197): when the cache exceeds the
limit of 100 entries, pop the oldest `int(100 * 0.2) = 20` entries. -/
def manageCacheSize (c : QCache) : QCache :=
  if 100 < c.length then c.drop 20 else c

/-- `analyze_query` (orchestrator lines 199-298) as a function of the cache state:
returns the routing dictionary together with the updated cache.  A cache hit
returns a copy of the stored decision without consulting the LLM; otherwise the
`try` body runs and, only if it completes, the decision is cached; the outer
`except` produces the confidence-0.3 keyword fallback and leaves the cache alone. -/
def analyzeQuery (llm : Except String PyStr) (decode : PyStr → Option JObj)
    (cache : QCache) (q : PyStr) : JObj × QCache :=
  let key := queryCacheKey q
  match lookupD cache key with
  | some cached => (cached, cache)
  | none =>
    match llm >>= fun text => tryAnalyze text decode q with
    | .ok info => (info, manageCacheSize (setD cache key info))
    | .error e => (errorFallbackInfo q e, cache)

end SupPay

namespace SupPay

/-! ## RunExecutor: `AzureAgentOrchestrator._run_agent` (orchestrator lines 699-818)
and `_run_agent_via_sdk` (lines 820-941)

The Azure SDK calls are supplied as `Except`-valued fields of `ExecEnv`
(`.error e` = the call raised).  The run object's `id` is the one returned by
`create_run`.  `asyncio.sleep` is pure waiting; the poll loop records the slept
delays and the number of `get_run` status fetches as ghost outputs so the backoff
schedule can be stated. -/

/-- One element of `content` of a thread message: `hasattr(part, "text")` and
`hasattr(part.text, "value")` become nested `Option`s. -/
structure ContentPart where
  text : Option (Option String)

/-- One thread message as consumed by the executor: `role`, optional
`created_at` (`hasattr` check) and optional `content` list. -/
structure ThreadMsg where
  role : String
  created_at : Option Nat
  content : Option (List ContentPart)

/-- The remote-call environment of one executor invocation. -/
structure ExecEnv where
  /-- `project_client.agents.create_thread()` (used only by the via-SDK variant). -/
  createThread : Except String String
  /-- `create_message(thread_id, role="user", content=...)`. -/
  createMessage : String → Except String Unit
  /-- `create_run(thread_id, agent_id[, tool_choice="none"])`, returning the run id.
  The Bool is the `disable_tools` flag that adds `tool_choice` to the request. -/
  createRun : Bool → Except String String
  /-- `get_run(thread_id, run_id)` at the i-th poll iteration, returning `status`. -/
  getRun : Nat → Except String String
  /-- `list_run_steps` diagnostics (fetched, logged, and swallowed on failure;
  it carries no information the result depends on). -/
  listRunSteps : Except String Unit
  /-- `list_messages(thread_id)`. -/
  listMessages : Except String (List ThreadMsg)

/-- Terminal-failure statuses of the poll loop (orchestrator line 764). -/
def isTerminalFailure (s : String) : Bool :=
  s = "failed" || s = "cancelled" || s = "expired"

/-- Outcome of the poll loop. -/
inductive PollOutcome where
  /-- `status == "completed"`: `break` out of the loop. -/
  | completed : PollOutcome
  /-- A remote-reported `failed`/`cancelled`/`expired` status. -/
  | terminalFailure : String → PollOutcome
  /-- The loop ran out of its 15 iterations. -/
  | maxRetriesReached : PollOutcome
  /-- `get_run` raised; propagates to the outer handler. -/
  | exc : String → PollOutcome

/-- The poll loop (orchestrator lines 746-786): `while retry_count < max_retries`,
fetch status, break on `completed`, return on terminal failure, otherwise sleep
`retry_delay` and set `retry_delay = min(retry_delay * 2, 30)`.  `fuel` is
`max_retries - retry_count`; the second and third components are the ghost trace:
number of status fetches performed and the list of slept delays. -/
def pollAux (getRun : Nat → Except String String) :
    Nat → Nat → Nat → PollOutcome × Nat × List Nat
  | 0, _, _ => (.maxRetriesReached, 0, [])
  | fuel + 1, count, delay =>
    match getRun count with
    | .error e => (.exc e, 1, [])
    | .ok status =>
      if status = "completed" then (.completed, 1, [])
      else if isTerminalFailure status then (.terminalFailure status, 1, [])
      else
        let r := pollAux getRun fuel (count + 1) (min (delay * 2) 30)
        (r.1, r.2.1 + 1, delay :: r.2.2)

/-- `max_retries = 15` (orchestrator line 747). -/
def maxRetries : Nat := 15

/-- The full poll loop: 15 iterations, initial delay 1. -/
def pollRun (getRun : Nat → Except String String) : PollOutcome × Nat × List Nat :=
  pollAux getRun maxRetries 0 1

/-- Result dictionaries of the executor. -/
abbrev RunDict := List (String × String)

/-- Response extraction after a completed run (orchestrator lines 788-812):
filter `messages.data` to assistant messages carrying `created_at`, stable-sort by
creation time descending, take the newest, and return the value of its first text
content block; every other shape yields the "no assistant messages" error. -/
def extractResult (tid runId : String) (msgs : List ThreadMsg) : RunDict :=
  let noMsg : RunDict :=
    [("error", "No assistant messages found in thread or message format not recognized"),
     ("thread_id", tid), ("run_id", runId)]
  if msgs.isEmpty then noMsg
  else
    let assistant := msgs.filter (fun m => m.role = "assistant" && m.created_at.isSome)
    let sorted := assistant.mergeSort
      (fun a b => b.created_at.getD 0 ≤ a.created_at.getD 0)
    match sorted with
    | [] => noMsg
    | last :: _ =>
      match last.content with
      | some parts =>
        if parts.isEmpty then noMsg
        else
          match parts.findSome? (fun p => p.text.bind id) with
          | some v => [("result", v), ("thread_id", tid), ("run_id", runId)]
          | none => noMsg
      | none => noMsg

/-- The `try` body of `_run_agent` (orchestrator lines 716-812), shared verbatim by
`_run_agent_via_sdk` (lines 839-936): post the message, start the run, poll, then
extract the newest assistant text.  A `.error` is an exception reaching the outer
handler.  On a terminal failure the run-steps diagnostics fetch happens inside its
own swallowed `try` (line 769-774) and cannot affect the result. -/
def runAgentBody (env : ExecEnv) (tid : String) (msg : String) (disableTools : Bool) :
    Except String RunDict := do
  let _ ← env.createMessage msg
  let runId ← env.createRun disableTools
  match (pollRun env.getRun).1 with
  | .exc e => .error e
  | .terminalFailure s =>
    pure [("error", "Run " ++ runId ++ " ended with status: " ++ s),
          ("thread_id", tid), ("run_id", runId)]
  | .maxRetriesReached =>
    pure [("error", "Maximum retries reached waiting for run " ++ runId ++ " to complete"),
          ("thread_id", tid), ("run_id", runId)]
  | .completed => do
    let msgs ← env.listMessages
    pure (extractResult tid runId msgs)

/-- `_run_agent` (orchestrator lines 699-818).  `clientInitialized` models
`self.project_client is not None`; the `agent_id` argument reaches the remote
service only through `env.createRun` and is kept for signature fidelity. -/
def runAgent (clientInitialized : Bool) (env : ExecEnv)
    (tid _agentId msg : String) (disableTools : Bool) : RunDict :=
  if !clientInitialized then
    [("error", "AIProjectClient not initialized"), ("thread_id", tid)]
  else
    match runAgentBody env tid msg disableTools with
    | .ok d => d
    | .error e => [("error", "Error running agent: " ++ e), ("thread_id", tid)]

/-- `_run_agent_via_sdk` (orchestrator lines 820-941): creates its own thread first;
its outer handler returns an error dictionary without a thread id. -/
def runAgentViaSdk (clientInitialized : Bool) (env : ExecEnv)
    (_agentId msg : String) (disableTools : Bool) : RunDict :=
  if !clientInitialized then
    [("error", "AIProjectClient not initialized")]
  else
    match env.createThread >>= fun tid => runAgentBody env tid msg disableTools with
    | .ok d => d
    | .error e => [("error", "Error in SDK-based agent run: " ++ e)]

end SupPay

namespace SupPay

/-! ## AgentRegistry: `AzureAgentDefinitions` (definitions file lines 441-704)

State: the persisted `agent_ids.json` file and whether `self.project_client` has
been initialized.  The file is `none` when absent, `some none` when present but
unparsable, and `some (some d)` when it parses to the dictionary `d` (a JSON
object, hence with pairwise-distinct keys when in normal operation).  File reads
and writes themselves are modelled as reliable (their `try/except` wrappers only
log); all claims here concern the branching logic around them.

Remote calls are `Except`-valued fields of `RegEnv`.  The Excel-file upload step
of `deploy_agents` (lines 627-635) swallows every per-file error and only shapes
the tool configuration of created agents, so it is absorbed into the abstract
`create` calls. -/

/-- A persisted / in-memory role-to-agent-id mapping (Python dict). -/
abbrev AgentDict := List (String × String)

/-- Registry state: the `agent_ids.json` file and the lazily-created project client. -/
structure RegSt where
  file : Option (Option AgentDict)
  clientInited : Bool

/-- Remote environment of one registry operation. -/
structure RegEnv where
  /-- `_initialize_project_client` (lines 706-727); raises on failure. -/
  initClient : Except String Unit
  /-- `project_client.agents.get_agent(agent_id=...)` per agent id (line 515). -/
  getAgent : String → Except String Unit
  /-- `credential.get_token(...)` (lines 539, 619); raises on failure. -/
  getToken : Except String Unit
  /-- `project_client.agents.list_agents()` as `(name, id)` pairs (line 549). -/
  listAgentsSdk : Except String (List (String × String))
  /-- The REST listing fallback (lines 571-589): `none` models a response that is
  falsy or lacks a `data` key; response entries are `(name, id)` pairs. -/
  listAgentsApi : Except String (Option (List (String × String)))
  /-- `project_client.agents.create_agent(...)` per role, returning the id (line 651). -/
  createAgentSdk : String → Except String String
  /-- The REST creation fallback per role (lines 665-694): `.ok none` models a
  response without an `id` (logged, role skipped). -/
  createAgentApi : String → Except String (Option String)

/-- The keys of `self.agent_instructions` (lines 39-43), in insertion order. -/
def agentInstructionKeys : List String :=
  ["policy_extraction_agent", "pay_calculation_agent", "analytics_agent"]

/-- `len(self.agent_instructions)`. -/
def numAgents : Nat := agentInstructionKeys.length

/-- `load_agent_ids` (lines 471-489): `{}` when the file is absent or unparsable. -/
def loadAgentIds (st : RegSt) : AgentDict :=
  match st.file with
  | none => []
  | some none => []
  | some (some d) => d

/-- `save_agent_ids` (lines 441-458) together with `_remove_agent_ids_file`
(lines 460-469): an empty mapping removes the file instead of writing `\x7b\x7d`. -/
def saveAgentIds (m : AgentDict) (st : RegSt) : RegSt :=
  if m.isEmpty then { st with file := none }
  else { st with file := some (some m) }

/-- The discovery fold (lines 552-555 / 576-580): add each listed agent whose name
is a configured role and not already mapped. -/
def discoverFold (acc : AgentDict) : List (String × String) → AgentDict
  | [] => acc
  | (name, id) :: rest =>
    if agentInstructionKeys.contains name && !(containsD acc name) then
      discoverFold (acc ++ [(name, id)]) rest
    else discoverFold acc rest

/-- The remote-listing phase of `get_existing_agents` (lines 538-593): fetch a
token (raises propagate), list via the SDK, fall back to the REST listing when the
SDK raises, and return whatever is known when both raise; a nonempty mapping is
persisted. -/
def discovery (env : RegEnv) (st : RegSt) (acc : AgentDict) :
    Except String (AgentDict × RegSt) :=
  match env.getToken with
  | .error e => .error e
  | .ok _ =>
    match env.listAgentsSdk with
    | .ok agents =>
      let ids := discoverFold acc agents
      if ids.isEmpty then .ok (ids, st) else .ok (ids, saveAgentIds ids st)
    | .error _ =>
      match env.listAgentsApi with
      | .ok resp =>
        let ids := match resp with
          | some data => discoverFold acc data
          | none => acc
        if ids.isEmpty then .ok (ids, st) else .ok (ids, saveAgentIds ids st)
      | .error _ => .ok (acc, st)

/-- `get_existing_agents` (lines 491-593): load the persisted mapping, lazily
initialize the client, validate each persisted entry via `get_agent` (dropping the
ones that raise), persist the reduced set only when it is a nonempty strict
subset, return early when every configured role is covered by count, and
otherwise continue with remote discovery. -/
def getExistingAgents (env : RegEnv) (st0 : RegSt) :
    Except String (AgentDict × RegSt) :=
  let loaded := loadAgentIds st0
  match (if st0.clientInited then Except.ok () else env.initClient) with
  | .error e => .error e
  | .ok _ =>
    let st1 : RegSt := { st0 with clientInited := true }
    if loaded.isEmpty then discovery env st1 []
    else
      let validated := loaded.filter (fun p => exOk (env.getAgent p.2))
      if validated.isEmpty then discovery env st1 []
      else
        let st2 := if validated.length < loaded.length then saveAgentIds validated st1 else st1
        if validated.length = numAgents then .ok (validated, st2)
        else discovery env st2 validated

/-- The provisioning loop of `deploy_agents` (lines 638-696): for each configured
role not already mapped, call the SDK `create_agent`, fall back to the REST
creation when it raises, and skip the role when both fail (or the REST response
has no id).  The second component is the ghost list of roles for which a remote
creation was attempted. -/
def provisionAll (env : RegEnv) (acc : AgentDict) :
    List String → AgentDict × List String
  | [] => (acc, [])
  | role :: rest =>
    if containsD acc role then provisionAll env acc rest
    else
      let acc' := match env.createAgentSdk role with
        | .ok id => acc ++ [(role, id)]
        | .error _ =>
          match env.createAgentApi role with
          | .ok (some id) => acc ++ [(role, id)]
          | .ok none => acc
          | .error _ => acc
      let r := provisionAll env acc' rest
      (r.1, role :: r.2)

/-- `deploy_agents` (lines 595-704): resolve existing agents, return immediately
when every configured role is covered by count, otherwise fetch a token and
provision the missing roles; raise only when the final mapping is empty, else
persist and return it.  The third component is the ghost list of roles for which
a remote creation was attempted. -/
def deployAgents (env : RegEnv) (st0 : RegSt) :
    Except String (AgentDict × RegSt × List String) :=
  match getExistingAgents env st0 with
  | .error e => .error e
  | .ok (ids0, st1) =>
    if ids0.length = numAgents then .ok (ids0, st1, [])
    else
      match (if st1.clientInited then Except.ok () else env.initClient) with
      | .error e => .error e
      | .ok _ =>
        let st2 : RegSt := { st1 with clientInited := true }
        match env.getToken with
        | .error e => .error e
        | .ok _ =>
          let pr := provisionAll env ids0 agentInstructionKeys
          if pr.1.isEmpty then .error "Failed to deploy any agents"
          else .ok (pr.1, saveAgentIds pr.1 st2, pr.2)

end SupPay

namespace SupPay

/-! ## Generic dictionary and list lemmas used by the claim proofs -/

theorem containsD_iff_mem_keys {K V : Type} [DecidableEq K] (d : List (K × V)) (k : K) :
    containsD d k = true ↔ k ∈ keysD d := by
  induction d with
  | nil => simp [containsD, lookupD, keysD]
  | cons p ps ih =>
    by_cases hk : p.1 = k
    · simp [containsD, lookupD, hk, keysD]
    · simp only [containsD, lookupD, hk, if_false, keysD, List.map_cons, List.mem_cons]
      rw [← keysD]
      constructor
      · intro h
        exact Or.inr (ih.mp h)
      · intro h
        rcases h with h | h
        · exact absurd h.symm hk
        · exact ih.mpr h

theorem lookupD_isSome_of_mem_keys {K V : Type} [DecidableEq K] {d : List (K × V)} {k : K}
    (h : k ∈ keysD d) : (lookupD d k).isSome = true := by
  induction d with
  | nil => simp [keysD] at h
  | cons p ps ih =>
    by_cases hk : p.1 = k
    · simp [lookupD, hk]
    · simp only [keysD, List.map_cons, List.mem_cons] at h
      rcases h with h | h
      · exact absurd h.symm hk
      · simp only [lookupD, hk, if_false]
        exact ih h

theorem lookupD_eq_some_mem {K V : Type} [DecidableEq K] {d : List (K × V)} {k : K} {v : V}
    (h : lookupD d k = some v) : (k, v) ∈ d := by
  induction d with
  | nil => simp [lookupD] at h
  | cons p ps ih =>
    by_cases hk : p.1 = k
    · simp only [lookupD, hk, if_true, Option.some.injEq] at h
      subst h
      rw [← hk]
      exact List.mem_cons_self p ps
    · simp only [lookupD, hk, if_false] at h
      exact List.mem_cons_of_mem p (ih h)

theorem setD_append_of_none {K V : Type} [DecidableEq K] {d : List (K × V)} {k : K}
    (h : lookupD d k = none) (v : V) : setD d k v = d ++ [(k, v)] := by
  induction d with
  | nil => rfl
  | cons p ps ih =>
    by_cases hk : p.1 = k
    · simp [lookupD, hk] at h
    · simp only [lookupD, hk, if_false] at h
      simp [setD, hk, ih h]

theorem find?_some_of_exists {α : Type} {p : α → Bool} {l : List α}
    (h : ∃ x ∈ l, p x = true) : ∃ y, l.find? p = some y := by
  have := List.find?_isSome.mpr h
  cases hf : l.find? p
  · rw [hf] at this
    simp at this
  · exact ⟨_, rfl⟩

/-! ## C9: persistence semantics of the registry store -/

/-- C9 — `save_agent_ids` removes the file on an empty mapping (so an empty and a
never-done deployment look the same on disk), writes the whole mapping otherwise,
and `load_agent_ids` yields the empty mapping when the file is absent or
unparsable. -/
theorem c9_persistence (st : RegSt) (m : AgentDict) :
    (m = [] → (saveAgentIds m st).file = none)
    ∧ (m ≠ [] → (saveAgentIds m st).file = some (some m))
    ∧ (∀ st' : RegSt, st'.file = none ∨ st'.file = some none → loadAgentIds st' = []) := by
  refine ⟨?_, ?_, ?_⟩
  · intro h
    subst h
    simp [saveAgentIds]
  · intro h
    have : m.isEmpty = false := by
      cases m
      · exact absurd rfl h
      · rfl
    simp [saveAgentIds, this]
  · intro st' h
    rcases h with h | h <;> simp [loadAgentIds, h]

/-- Witness for C9 at concrete inputs. -/
theorem c9_witness :
    (saveAgentIds [] ⟨some (some [("policy_extraction_agent", "a")]), true⟩).file = none
    ∧ (saveAgentIds [("policy_extraction_agent", "a")] ⟨none, true⟩).file
        = some (some [("policy_extraction_agent", "a")])
    ∧ loadAgentIds ⟨some none, true⟩ = [] := by
  refine ⟨?_, ?_, ?_⟩
  · exact (c9_persistence ⟨some (some [("policy_extraction_agent", "a")]), true⟩ []).1 rfl
  · exact (c9_persistence ⟨none, true⟩ [("policy_extraction_agent", "a")]).2.1 (by simp)
  · exact (c9_persistence ⟨none, true⟩ []).2.2 ⟨some none, true⟩ (Or.inr rfl)

end SupPay

namespace SupPay

/-! ## C5: validation pruning in `get_existing_agents` -/

/-- Environment for the C5 counterexample: the single persisted agent id no longer
validates, the remote listing succeeds and is empty. -/
def envAllInvalid : RegEnv :=
  ⟨.ok (), fun _ => .error "gone", .ok (), .ok [], .ok none,
   fun _ => .error "unused", fun _ => .error "unused"⟩

/-- State for the C5 counterexample: one persisted entry. -/
def stOneStale : RegSt :=
  ⟨some (some [("policy_extraction_agent", "stale-id")]), false⟩

/-- C5 counterexample — when every persisted entry fails validation the validated
set (empty, a strict subset of the loaded mapping) is NOT persisted: the call
returns the empty mapping while the stale file is left exactly as it was, whereas
the claim requires the reduced set to be persisted immediately (which for the
empty set would remove the file). -/
theorem c5_counterexample :
    (loadAgentIds stOneStale).filter (fun p => exOk (envAllInvalid.getAgent p.2)) = []
    ∧ getExistingAgents envAllInvalid stOneStale
        = .ok ([], ⟨some (some [("policy_extraction_agent", "stale-id")]), true⟩) := by
  exact ⟨rfl, rfl⟩

/-- C5 (amended) — validation during `get_existing_agents` keeps exactly the
entries whose remote get-agent call succeeds, in order; and whenever the validated
set is a NONEMPTY strict subset of the loaded mapping, the reduced set is
persisted to the local file immediately (when no entry validates, persistence is
skipped and the stale file is left in place, as the counterexample shows). -/
theorem c5_validation_prune (env : RegEnv) (st : RegSt) (loaded validated : AgentDict)
    (hfile : st.file = some (some loaded))
    (hval : validated = loaded.filter (fun p => exOk (env.getAgent p.2)))
    (hne : validated ≠ [])
    (hstrict : validated.length < loaded.length)
    (hinit : env.initClient = .ok ())
    (htok : env.getToken = .ok ())
    (hsdk : env.listAgentsSdk = .ok []) :
    (∀ p, p ∈ validated ↔ p ∈ loaded ∧ exOk (env.getAgent p.2) = true)
    ∧ ∃ st', getExistingAgents env st = .ok (validated, st')
        ∧ st'.file = some (some validated) := by
  have hmem : ∀ p, p ∈ validated ↔ p ∈ loaded ∧ exOk (env.getAgent p.2) = true := by
    intro p
    rw [hval]
    exact List.mem_filter
  refine ⟨hmem, ?_⟩
  have hloadeq : loadAgentIds st = loaded := by simp [loadAgentIds, hfile]
  have hloadne : loaded.isEmpty = false := by
    cases hl : loaded
    · subst hl
      simp at hstrict
    · rfl
  have hvne : validated.isEmpty = false := by
    cases hv : validated
    · exact absurd hv hne
    · rfl
  have hsave : (saveAgentIds validated { st with clientInited := true }).file
      = some (some validated) := by
    simp [saveAgentIds, hvne]
  unfold getExistingAgents
  rw [hloadeq]
  cases hci : st.clientInited <;>
    simp only [hci, hinit, hloadne, Bool.false_eq_true, if_false, ← hval, hvne, hstrict,
      if_true] <;>
    by_cases hnum : validated.length = numAgents
  · rw [if_pos hnum]
    exact ⟨_, rfl, hsave⟩
  · rw [if_neg hnum]
    simp only [discovery, htok, hsdk, discoverFold, hvne, Bool.false_eq_true, if_false]
    refine ⟨_, rfl, ?_⟩
    simp [saveAgentIds, hvne]
  · rw [if_pos hnum]
    exact ⟨_, rfl, hsave⟩
  · rw [if_neg hnum]
    simp only [discovery, htok, hsdk, discoverFold, hvne, Bool.false_eq_true, if_false]
    refine ⟨_, rfl, ?_⟩
    simp [saveAgentIds, hvne]

/-- Witness for C5 (amended): two persisted entries, one of which no longer
validates; the surviving entry is kept and the reduced mapping is persisted. -/
def envOneValid : RegEnv :=
  ⟨.ok (), fun i => if i = "a" then .ok () else .error "gone", .ok (), .ok [], .ok none,
   fun _ => .error "unused", fun _ => .error "unused"⟩

def stTwoEntries : RegSt :=
  ⟨some (some [("policy_extraction_agent", "a"), ("pay_calculation_agent", "bad")]), false⟩

theorem c5_witness :
    (∀ p, p ∈ [("policy_extraction_agent", "a")] ↔
        p ∈ [("policy_extraction_agent", "a"), ("pay_calculation_agent", "bad")]
        ∧ exOk (envOneValid.getAgent p.2) = true)
    ∧ ∃ st', getExistingAgents envOneValid stTwoEntries
        = .ok ([("policy_extraction_agent", "a")], st')
        ∧ st'.file = some (some [("policy_extraction_agent", "a")]) := by
  exact c5_validation_prune envOneValid stTwoEntries
    [("policy_extraction_agent", "a"), ("pay_calculation_agent", "bad")]
    [("policy_extraction_agent", "a")]
    rfl rfl (by decide) (by decide) rfl rfl rfl

end SupPay

namespace SupPay

/-! ## Structural lemmas about discovery and provisioning -/

theorem discoverFold_eq_append : ∀ (l : List (String × String)) (acc : AgentDict),
    ∃ t, discoverFold acc l = acc ++ t := by
  intro l
  induction l with
  | nil => exact fun acc => ⟨[], by simp [discoverFold]⟩
  | cons p rest ih =>
    intro acc
    obtain ⟨name, id⟩ := p
    by_cases hc : (agentInstructionKeys.contains name && !(containsD acc name)) = true
    · obtain ⟨t, ht⟩ := ih (acc ++ [(name, id)])
      refine ⟨(name, id) :: t, ?_⟩
      simp only [discoverFold, hc, if_true, ht, List.append_assoc, List.singleton_append]
    · obtain ⟨t, ht⟩ := ih acc
      refine ⟨t, ?_⟩
      have hcf : (agentInstructionKeys.contains name && !containsD acc name) = false :=
        Bool.eq_false_iff.mpr hc
      simp only [discoverFold, hcf, Bool.false_eq_true, if_false, ht]

theorem discoverFold_keys : ∀ (l : List (String × String)) (acc : AgentDict),
    ((keysD acc).Nodup → (keysD (discoverFold acc l)).Nodup)
    ∧ (∀ k ∈ keysD (discoverFold acc l), k ∈ keysD acc ∨ k ∈ agentInstructionKeys) := by
  intro l
  induction l with
  | nil => exact fun acc => ⟨fun h => h, fun k hk => Or.inl hk⟩
  | cons p rest ih =>
    intro acc
    obtain ⟨name, id⟩ := p
    by_cases hc : (agentInstructionKeys.contains name && !(containsD acc name)) = true
    · have hname : name ∈ agentInstructionKeys := by
        have h1 := ((Bool.and_eq_true _ _).mp hc).1
        simpa using h1
      have hnotin : name ∉ keysD acc := by
        have := (Bool.and_eq_true _ _).mp hc
        intro hmem
        have hcont := (containsD_iff_mem_keys acc name).mpr hmem
        rw [hcont] at this
        simp at this
      have hstep : discoverFold acc ((name, id) :: rest)
          = discoverFold (acc ++ [(name, id)]) rest := by
        simp only [discoverFold, hc, if_true]
      rw [hstep]
      have hkeys : keysD (acc ++ [(name, id)]) = keysD acc ++ [name] := by
        simp [keysD]
      constructor
      · intro hnd
        apply (ih (acc ++ [(name, id)])).1
        rw [hkeys]
        simp [List.nodup_append, hnd, hnotin]
      · intro k hk
        rcases (ih (acc ++ [(name, id)])).2 k hk with h | h
        · rw [hkeys] at h
          rcases List.mem_append.mp h with h | h
          · exact Or.inl h
          · simp at h
            subst h
            exact Or.inr hname
        · exact Or.inr h
    · have hcf : (agentInstructionKeys.contains name && !containsD acc name) = false :=
        Bool.eq_false_iff.mpr hc
      have hstep : discoverFold acc ((name, id) :: rest) = discoverFold acc rest := by
        simp only [discoverFold, hcf, Bool.false_eq_true, if_false]
      rw [hstep]
      exact ih acc

theorem provisionAll_eq_append (env : RegEnv) : ∀ (roles : List String) (acc : AgentDict),
    ∃ t, (provisionAll env acc roles).1 = acc ++ t := by
  intro roles
  induction roles with
  | nil => exact fun acc => ⟨[], by simp [provisionAll]⟩
  | cons r rest ih =>
    intro acc
    by_cases hc : containsD acc r = true
    · obtain ⟨t, ht⟩ := ih acc
      exact ⟨t, by simp only [provisionAll, hc, if_true, ht]⟩
    · cases hsdk : env.createAgentSdk r with
      | ok id =>
        obtain ⟨t, ht⟩ := ih (acc ++ [(r, id)])
        refine ⟨(r, id) :: t, ?_⟩
        simp [provisionAll, hc, hsdk, ht, List.append_assoc,
          List.singleton_append]
      | error e =>
        cases hapi : env.createAgentApi r with
        | ok o =>
          cases o with
          | some id =>
            obtain ⟨t, ht⟩ := ih (acc ++ [(r, id)])
            refine ⟨(r, id) :: t, ?_⟩
            simp [provisionAll, hc, hsdk, hapi, ht, List.append_assoc,
              List.singleton_append]
          | none =>
            obtain ⟨t, ht⟩ := ih acc
            exact ⟨t, by simp [provisionAll, hc, hsdk, hapi, ht]⟩
        | error e2 =>
          obtain ⟨t, ht⟩ := ih acc
          exact ⟨t, by simp [provisionAll, hc, hsdk, hapi, ht]⟩

theorem provisionAll_contains_mono (env : RegEnv) : ∀ (roles : List String)
    (acc : AgentDict) (k : String), containsD acc k = true →
    containsD (provisionAll env acc roles).1 k = true := by
  intro roles acc k hk
  obtain ⟨t, ht⟩ := provisionAll_eq_append env roles acc
  rw [ht]
  rw [containsD_iff_mem_keys] at hk ⊢
  simp only [keysD, List.map_append, List.mem_append]
  exact Or.inl hk

theorem provisionAll_contains_of_ok (env : RegEnv) : ∀ (roles : List String)
    (acc : AgentDict) (r : String), r ∈ roles → exOk (env.createAgentSdk r) = true →
    containsD (provisionAll env acc roles).1 r = true := by
  intro roles
  induction roles with
  | nil => intro acc r hr; simp at hr
  | cons x rest ih =>
    intro acc r hr hok
    rcases List.mem_cons.mp hr with hr | hr
    · subst hr
      by_cases hc : containsD acc r = true
      · simp only [provisionAll, hc, if_true]
        exact provisionAll_contains_mono env rest acc r hc
      · cases hsdk : env.createAgentSdk r with
        | error e => rw [hsdk] at hok; simp at hok
        | ok id =>
          simp [provisionAll, hc, hsdk]
          apply provisionAll_contains_mono
          rw [containsD_iff_mem_keys]
          simp [keysD]
    · by_cases hc : containsD acc x = true
      · simp only [provisionAll, hc, if_true]
        exact ih acc r hr hok
      · simp [provisionAll, hc]
        cases hsdk : env.createAgentSdk x with
        | ok id => exact ih _ r hr hok
        | error e =>
          cases hapi : env.createAgentApi x with
          | ok o => cases o <;> exact ih _ r hr hok
          | error e2 => exact ih _ r hr hok

theorem provisionAll_keys (env : RegEnv) : ∀ (roles : List String) (acc : AgentDict),
    ((keysD acc).Nodup → (keysD (provisionAll env acc roles).1).Nodup)
    ∧ (∀ k ∈ keysD (provisionAll env acc roles).1, k ∈ keysD acc ∨ k ∈ roles) := by
  intro roles
  induction roles with
  | nil => exact fun acc => ⟨fun h => by simpa [provisionAll] using h,
      fun k hk => Or.inl (by simpa [provisionAll] using hk)⟩
  | cons r rest ih =>
    intro acc
    by_cases hc : containsD acc r = true
    · constructor
      · intro hnd
        simp only [provisionAll, hc, if_true]
        exact (ih acc).1 hnd
      · intro k hk
        simp only [provisionAll, hc, if_true] at hk
        rcases (ih acc).2 k hk with h | h
        · exact Or.inl h
        · exact Or.inr (List.mem_cons_of_mem r h)
    · have hnotin : r ∉ keysD acc := by
        intro hmem
        exact hc ((containsD_iff_mem_keys acc r).mpr hmem)
      have key_step : ∀ id : String, keysD (acc ++ [(r, id)]) = keysD acc ++ [r] := by
        intro id; simp [keysD]
      have hsub1 : ∀ id k, k ∈ keysD (acc ++ [(r, id)]) → k ∈ keysD acc ∨ k = r := by
        intro id k hk
        rw [key_step id] at hk
        rcases List.mem_append.mp hk with h | h
        · exact Or.inl h
        · simp at h; exact Or.inr h
      have hnd1 : ∀ id, (keysD acc).Nodup → (keysD (acc ++ [(r, id)])).Nodup := by
        intro id hnd
        rw [key_step id]
        simp [List.nodup_append, hnd, hnotin]
      cases hsdk : env.createAgentSdk r with
      | ok id =>
        constructor
        · intro hnd
          simp [provisionAll, hc, hsdk]
          exact (ih _).1 (hnd1 id hnd)
        · intro k hk
          simp [provisionAll, hc, hsdk] at hk
          rcases (ih _).2 k hk with h | h
          · rcases hsub1 id k h with h | h
            · exact Or.inl h
            · subst h; exact Or.inr (List.mem_cons_self _ _)
          · exact Or.inr (List.mem_cons_of_mem r h)
      | error e =>
        cases hapi : env.createAgentApi r with
        | ok o =>
          cases o with
          | some id =>
            constructor
            · intro hnd
              simp [provisionAll, hc, hsdk, hapi]
              exact (ih _).1 (hnd1 id hnd)
            · intro k hk
              simp [provisionAll, hc, hsdk, hapi] at hk
              rcases (ih _).2 k hk with h | h
              · rcases hsub1 id k h with h | h
                · exact Or.inl h
                · subst h; exact Or.inr (List.mem_cons_self _ _)
              · exact Or.inr (List.mem_cons_of_mem r h)
          | none =>
            constructor
            · intro hnd
              simp [provisionAll, hc, hsdk, hapi]
              exact (ih acc).1 hnd
            · intro k hk
              simp [provisionAll, hc, hsdk, hapi] at hk
              rcases (ih acc).2 k hk with h | h
              · exact Or.inl h
              · exact Or.inr (List.mem_cons_of_mem r h)
        | error e2 =>
          constructor
          · intro hnd
            simp [provisionAll, hc, hsdk, hapi]
            exact (ih acc).1 hnd
          · intro k hk
            simp [provisionAll, hc, hsdk, hapi] at hk
            rcases (ih acc).2 k hk with h | h
            · exact Or.inl h
            · exact Or.inr (List.mem_cons_of_mem r h)

end SupPay

namespace SupPay

/-! ## Behavioural lemmas about `get_existing_agents` and `deploy_agents` -/

theorem discovery_ok (env : RegEnv) (st : RegSt) (acc : AgentDict)
    (htok : env.getToken = .ok ()) : ∃ p, discovery env st acc = .ok p := by
  unfold discovery
  rw [htok]
  cases hsdk : env.listAgentsSdk with
  | ok agents =>
    by_cases h : (discoverFold acc agents).isEmpty = true <;> simp [h]
  | error e =>
    cases hapi : env.listAgentsApi with
    | ok resp =>
      cases resp with
      | some data =>
        by_cases h : (discoverFold acc data).isEmpty = true <;> simp [h]
      | none =>
        by_cases h : acc.isEmpty = true <;> simp [h]
    | error e2 => exact ⟨_, rfl⟩

theorem getExisting_ok (env : RegEnv) (st : RegSt)
    (hinit : env.initClient = .ok ()) (htok : env.getToken = .ok ()) :
    ∃ m st', getExistingAgents env st = .ok (m, st') := by
  unfold getExistingAgents
  have hclient : (if st.clientInited then Except.ok () else env.initClient)
      = Except.ok () := by
    cases st.clientInited <;> simp [hinit]
  rw [hclient]
  by_cases hl : (loadAgentIds st).isEmpty = true
  · simp only [hl, if_true]
    obtain ⟨p, hp⟩ := discovery_ok env _ [] htok
    exact ⟨p.1, p.2, by rw [hp]⟩
  · simp only [hl, Bool.false_eq_true, if_false]
    by_cases hv : ((loadAgentIds st).filter (fun p => exOk (env.getAgent p.2))).isEmpty = true
    · simp only [hv, if_true]
      obtain ⟨p, hp⟩ := discovery_ok env _ [] htok
      exact ⟨p.1, p.2, by rw [hp]⟩
    · simp only [hv, Bool.false_eq_true, if_false]
      by_cases hn : ((loadAgentIds st).filter (fun p => exOk (env.getAgent p.2))).length
          = numAgents
      · simp only [hn, if_true]
        exact ⟨_, _, rfl⟩
      · simp only [hn, if_false]
        obtain ⟨p, hp⟩ := discovery_ok env _ _ htok
        exact ⟨p.1, p.2, by rw [hp]⟩

theorem discovery_keys (env : RegEnv) (st : RegSt) (acc : AgentDict) (m : AgentDict)
    (st'' : RegSt) (h : discovery env st acc = .ok (m, st''))
    (hnd : (keysD acc).Nodup) (hsub : ∀ k ∈ keysD acc, k ∈ agentInstructionKeys) :
    (keysD m).Nodup ∧ ∀ k ∈ keysD m, k ∈ agentInstructionKeys := by
  unfold discovery at h
  cases htok : env.getToken with
  | error e => rw [htok] at h; exact absurd h (by simp)
  | ok u =>
    rw [htok] at h
    have fold_case : ∀ (l : List (String × String)),
        (keysD (discoverFold acc l)).Nodup
        ∧ ∀ k ∈ keysD (discoverFold acc l), k ∈ agentInstructionKeys := by
      intro l
      refine ⟨(discoverFold_keys l acc).1 hnd, fun k hk => ?_⟩
      rcases (discoverFold_keys l acc).2 k hk with hmem | hmem
      · exact hsub k hmem
      · exact hmem
    cases hsdk : env.listAgentsSdk with
    | ok agents =>
      rw [hsdk] at h
      by_cases hemp : (discoverFold acc agents).isEmpty = true <;>
        simp only [hemp, Bool.false_eq_true, if_true, if_false, Except.ok.injEq,
          Prod.mk.injEq] at h <;>
        obtain ⟨h1, _⟩ := h <;> subst h1 <;> exact fold_case agents
    | error e =>
      rw [hsdk] at h
      cases hapi : env.listAgentsApi with
      | ok resp =>
        rw [hapi] at h
        cases resp with
        | some data =>
          by_cases hemp : (discoverFold acc data).isEmpty = true <;>
            simp only [hemp, Bool.false_eq_true, if_true, if_false, Except.ok.injEq,
              Prod.mk.injEq] at h <;>
            obtain ⟨h1, _⟩ := h <;> subst h1 <;> exact fold_case data
        | none =>
          by_cases hemp : acc.isEmpty = true <;>
            simp only [hemp, Bool.false_eq_true, if_true, if_false, Except.ok.injEq,
              Prod.mk.injEq] at h <;>
            obtain ⟨h1, _⟩ := h <;> subst h1 <;> exact ⟨hnd, hsub⟩
      | error e2 =>
        rw [hapi] at h
        simp only [Except.ok.injEq, Prod.mk.injEq] at h
        obtain ⟨h1, _⟩ := h
        subst h1
        exact ⟨hnd, hsub⟩

theorem keysD_filter_sublist {p : String × String → Bool} (l : AgentDict) :
    (keysD (l.filter p)).Sublist (keysD l) :=
  (List.filter_sublist l).map Prod.fst

theorem getExisting_keys (env : RegEnv) (st : RegSt) (m : AgentDict) (st' : RegSt)
    (h : getExistingAgents env st = .ok (m, st'))
    (hnd : (keysD (loadAgentIds st)).Nodup)
    (hsub : ∀ k ∈ keysD (loadAgentIds st), k ∈ agentInstructionKeys) :
    (keysD m).Nodup ∧ ∀ k ∈ keysD m, k ∈ agentInstructionKeys := by
  unfold getExistingAgents at h
  cases hclient : (if st.clientInited then Except.ok () else env.initClient) with
  | error e => rw [hclient] at h; exact absurd h (by simp)
  | ok u =>
    rw [hclient] at h
    have hvnd : (keysD ((loadAgentIds st).filter (fun p => exOk (env.getAgent p.2)))).Nodup :=
      hnd.sublist (keysD_filter_sublist _)
    have hvsub : ∀ k ∈ keysD ((loadAgentIds st).filter (fun p => exOk (env.getAgent p.2))),
        k ∈ agentInstructionKeys :=
      fun k hk => hsub k ((keysD_filter_sublist _).mem hk)
    by_cases hl : (loadAgentIds st).isEmpty = true
    · simp only [hl, if_true] at h
      exact discovery_keys env _ [] m st' h (by simp [keysD]) (by simp [keysD])
    · simp only [hl, Bool.false_eq_true, if_false] at h
      by_cases hv : ((loadAgentIds st).filter (fun p => exOk (env.getAgent p.2))).isEmpty = true
      · simp only [hv, if_true] at h
        exact discovery_keys env _ [] m st' h (by simp [keysD]) (by simp [keysD])
      · simp only [hv, Bool.false_eq_true, if_false] at h
        by_cases hn : ((loadAgentIds st).filter (fun p => exOk (env.getAgent p.2))).length
            = numAgents
        · simp only [hn, if_true, Except.ok.injEq, Prod.mk.injEq] at h
          obtain ⟨h1, _⟩ := h
          subst h1
          exact ⟨hvnd, hvsub⟩
        · simp only [hn, if_false] at h
          exact discovery_keys env _ _ m st' h hvnd hvsub

end SupPay

namespace SupPay

theorem saveAgentIds_file_of_ne (m : AgentDict) (st : RegSt) (hm : m ≠ []) :
    (saveAgentIds m st).file = some (some m) := by
  have : m.isEmpty = false := by
    cases m
    · exact absurd rfl hm
    · rfl
  simp [saveAgentIds, this]

theorem saveAgentIds_clientInited (m : AgentDict) (st : RegSt) :
    (saveAgentIds m st).clientInited = st.clientInited := by
  unfold saveAgentIds
  by_cases h : m.isEmpty = true <;> simp [h]

theorem discovery_st (env : RegEnv) (st : RegSt) (acc : AgentDict) (m : AgentDict)
    (st'' : RegSt) (h : discovery env st acc = .ok (m, st''))
    (hci : st.clientInited = true)
    (hacc : acc ≠ [] → st.file = some (some acc)) :
    st''.clientInited = true ∧ (m ≠ [] → st''.file = some (some m)) := by
  unfold discovery at h
  cases htok : env.getToken with
  | error e => rw [htok] at h; exact absurd h (by simp)
  | ok u =>
    rw [htok] at h
    have handle : ∀ (ids : AgentDict),
        ((if ids.isEmpty = true then Except.ok (ids, st)
          else Except.ok (ids, saveAgentIds ids st)) :
            Except String (AgentDict × RegSt)) = Except.ok (m, st'') →
        st''.clientInited = true ∧ (m ≠ [] → st''.file = some (some m)) := by
      intro ids hh
      by_cases hemp : ids.isEmpty = true
      · rw [if_pos hemp] at hh
        simp only [Except.ok.injEq, Prod.mk.injEq] at hh
        obtain ⟨h1, h2⟩ := hh
        subst h1; subst h2
        refine ⟨hci, fun hne => ?_⟩
        cases hids : ids
        · subst hids; exact absurd rfl hne
        · subst hids; simp at hemp
      · rw [if_neg hemp] at hh
        simp only [Except.ok.injEq, Prod.mk.injEq] at hh
        obtain ⟨h1, h2⟩ := hh
        subst h1; subst h2
        have hne : ids ≠ [] := by
          intro hcon
          subst hcon
          simp at hemp
        refine ⟨?_, fun _ => saveAgentIds_file_of_ne ids st hne⟩
        rw [saveAgentIds_clientInited]
        exact hci
    cases hsdk : env.listAgentsSdk with
    | ok agents =>
      rw [hsdk] at h
      exact handle (discoverFold acc agents) h
    | error e =>
      rw [hsdk] at h
      cases hapi : env.listAgentsApi with
      | ok resp =>
        rw [hapi] at h
        cases resp with
        | some data => exact handle (discoverFold acc data) h
        | none => exact handle acc h
      | error e2 =>
        rw [hapi] at h
        simp only [Except.ok.injEq, Prod.mk.injEq] at h
        obtain ⟨h1, h2⟩ := h
        subst h1; subst h2
        exact ⟨hci, hacc⟩

theorem loadAgentIds_file_of_ne (st : RegSt) (h : loadAgentIds st ≠ []) :
    st.file = some (some (loadAgentIds st)) := by
  cases hf : st.file with
  | none => simp [loadAgentIds, hf] at h
  | some o =>
    cases o with
    | none => simp [loadAgentIds, hf] at h
    | some d => simp [loadAgentIds, hf]

theorem getExisting_st (env : RegEnv) (st : RegSt) (m : AgentDict) (st' : RegSt)
    (h : getExistingAgents env st = .ok (m, st')) :
    st'.clientInited = true ∧ (m ≠ [] → st'.file = some (some m)) := by
  unfold getExistingAgents at h
  cases hclient : (if st.clientInited then Except.ok () else env.initClient) with
  | error e => rw [hclient] at h; exact absurd h (by simp)
  | ok u =>
    rw [hclient] at h
    dsimp only at h
    have hst1ci : (RegSt.mk st.file true).clientInited = true := rfl
    by_cases hl : (loadAgentIds st).isEmpty = true
    · rw [if_pos hl] at h
      exact discovery_st env _ [] m st' h hst1ci (fun hc => absurd rfl hc)
    · rw [if_neg hl] at h
      by_cases hv : ((loadAgentIds st).filter (fun p => exOk (env.getAgent p.2))).isEmpty
          = true
      · rw [if_pos hv] at h
        exact discovery_st env _ [] m st' h hst1ci (fun hc => absurd rfl hc)
      · rw [if_neg hv] at h
        have hvne : (loadAgentIds st).filter (fun p => exOk (env.getAgent p.2)) ≠ [] := by
          intro hcon
          rw [hcon] at hv
          simp at hv
        have hst2 : ((if ((loadAgentIds st).filter (fun p => exOk (env.getAgent p.2))).length
                < (loadAgentIds st).length
              then saveAgentIds ((loadAgentIds st).filter (fun p => exOk (env.getAgent p.2)))
                (RegSt.mk st.file true)
              else RegSt.mk st.file true)).clientInited = true
            ∧ ((if ((loadAgentIds st).filter (fun p => exOk (env.getAgent p.2))).length
                < (loadAgentIds st).length
              then saveAgentIds ((loadAgentIds st).filter (fun p => exOk (env.getAgent p.2)))
                (RegSt.mk st.file true)
              else RegSt.mk st.file true)).file
              = some (some ((loadAgentIds st).filter (fun p => exOk (env.getAgent p.2)))) := by
          by_cases hlt : ((loadAgentIds st).filter (fun p => exOk (env.getAgent p.2))).length
              < (loadAgentIds st).length
          · rw [if_pos hlt]
            refine ⟨?_, saveAgentIds_file_of_ne _ _ hvne⟩
            rw [saveAgentIds_clientInited]
          · rw [if_neg hlt]
            have hle : ((loadAgentIds st).filter (fun p => exOk (env.getAgent p.2))).length
                ≤ (loadAgentIds st).length := List.length_filter_le _ _
            have hlen : ((loadAgentIds st).filter (fun p => exOk (env.getAgent p.2))).length
                = (loadAgentIds st).length := by omega
            have heq : (loadAgentIds st).filter (fun p => exOk (env.getAgent p.2))
                = loadAgentIds st :=
              (List.filter_sublist (loadAgentIds st)).eq_of_length hlen
            have hlne : loadAgentIds st ≠ [] := by
              rw [← heq]
              exact hvne
            refine ⟨rfl, ?_⟩
            show st.file = _
            rw [heq]
            exact loadAgentIds_file_of_ne st hlne
        by_cases hn : ((loadAgentIds st).filter (fun p => exOk (env.getAgent p.2))).length
            = numAgents
        · rw [if_pos hn] at h
          simp only [Except.ok.injEq, Prod.mk.injEq] at h
          obtain ⟨h1, h2⟩ := h
          subst h1
          rw [← h2]
          exact ⟨hst2.1, fun _ => hst2.2⟩
        · rw [if_neg hn] at h
          exact discovery_st env _ _ m st' h hst2.1 (fun _ => hst2.2)

theorem deploy_ok_st (env : RegEnv) (st : RegSt) (m : AgentDict) (st' : RegSt)
    (c : List String) (h : deployAgents env st = .ok (m, st', c)) :
    st'.clientInited = true ∧ st'.file = some (some m) ∧ m ≠ [] := by
  unfold deployAgents at h
  cases hge : getExistingAgents env st with
  | error e => rw [hge] at h; exact absurd h (by simp)
  | ok p =>
    obtain ⟨ids0, st1⟩ := p
    rw [hge] at h
    dsimp only at h
    by_cases hn : ids0.length = numAgents
    · rw [if_pos hn] at h
      simp only [Except.ok.injEq, Prod.mk.injEq] at h
      obtain ⟨h1, h2, h3⟩ := h
      have hne : ids0 ≠ [] := by
        intro hcon
        rw [hcon] at hn
        simp [numAgents, agentInstructionKeys] at hn
      obtain ⟨ha, hb⟩ := getExisting_st env st ids0 st1 hge
      rw [← h1, ← h2]
      exact ⟨ha, hb hne, h1 ▸ hne⟩
    · rw [if_neg hn] at h
      obtain ⟨ha, _⟩ := getExisting_st env st ids0 st1 hge
      rw [ha] at h
      simp only [if_true] at h
      cases htok : env.getToken with
      | error e => rw [htok] at h; exact absurd h (by simp)
      | ok u =>
        rw [htok] at h
        by_cases hemp : (provisionAll env ids0 agentInstructionKeys).1.isEmpty = true
        · rw [if_pos hemp] at h
          exact absurd h (by simp)
        · rw [if_neg hemp] at h
          simp only [Except.ok.injEq, Prod.mk.injEq] at h
          obtain ⟨h1, h2, h3⟩ := h
          have hne : (provisionAll env ids0 agentInstructionKeys).1 ≠ [] := by
            intro hcon
            rw [hcon] at hemp
            simp at hemp
          rw [← h1, ← h2]
          refine ⟨?_, ?_, hne⟩
          · rw [saveAgentIds_clientInited]
          · exact saveAgentIds_file_of_ne _ _ hne

end SupPay

namespace SupPay

theorem all_roles_of_keys (m : AgentDict) (hnd : (keysD m).Nodup)
    (hsub : ∀ k ∈ keysD m, k ∈ agentInstructionKeys) (hlen : m.length = numAgents) :
    ∀ r ∈ agentInstructionKeys, containsD m r = true := by
  intro r hr
  rw [containsD_iff_mem_keys]
  have hklen : (keysD m).length = numAgents := by simpa [keysD] using hlen
  have hinstr_nd : agentInstructionKeys.Nodup := by decide
  have hsubF : (keysD m).toFinset ⊆ agentInstructionKeys.toFinset := by
    intro x hx
    rw [List.mem_toFinset] at hx ⊢
    exact hsub x hx
  have hcard1 : (keysD m).toFinset.card = numAgents := by
    rw [List.toFinset_card_of_nodup hnd, hklen]
  have hcard2 : agentInstructionKeys.toFinset.card = numAgents := by
    rw [List.toFinset_card_of_nodup hinstr_nd]
    rfl
  have heq : (keysD m).toFinset = agentInstructionKeys.toFinset :=
    Finset.eq_of_subset_of_card_le hsubF (by rw [hcard1, hcard2])
  rw [← List.mem_toFinset, heq, List.mem_toFinset]
  exact hr

/-! ## C4: `deploy_agents` raises iff zero roles resolved — corrected -/

/-- Environment for the C4 counterexample: the persisted id validates but the
auth-token fetch raises. -/
def envTokenDown : RegEnv :=
  ⟨.ok (), fun _ => .ok (), .error "auth down", .ok [], .ok none,
   fun r => .ok ("id_" ++ r), fun _ => .ok none⟩

/-- State for the C4 counterexample: one persisted (and valid) role. -/
def stOneGood : RegSt :=
  ⟨some (some [("policy_extraction_agent", "a")]), false⟩

/-- C4 counterexample — one role resolves from the persisted file (its id
validates), yet `deploy_agents` raises because the token acquisition that follows
validation raises; so "raises iff zero roles could be resolved" is false as
stated: a raise can happen with a resolved role in hand, and the partial mapping
is not returned. -/
theorem c4_counterexample :
    deployAgents envTokenDown stOneGood = .error "auth down"
    ∧ (loadAgentIds stOneGood).filter (fun p => exOk (envTokenDown.getAgent p.2))
        = [("policy_extraction_agent", "a")] := by
  exact ⟨rfl, rfl⟩

/-- C4 (amended) — provided the shared infrastructure steps (project-client
initialization and token acquisition) succeed and the persisted file is a
well-formed role mapping, `deploy_agents` raises only the
"Failed to deploy any agents" error, raises it exactly when the final mapping is
empty, returns a nonempty (possibly partial) mapping otherwise, and a
provisioning failure for one role does not prevent provisioning of the remaining
roles (any role whose SDK create succeeds ends up mapped). -/
theorem c4_partial_deploy (env : RegEnv) (st : RegSt)
    (hinit : env.initClient = .ok ()) (htok : env.getToken = .ok ())
    (hnd : (keysD (loadAgentIds st)).Nodup)
    (hsub : ∀ k ∈ keysD (loadAgentIds st), k ∈ agentInstructionKeys) :
    (∀ e, deployAgents env st = .error e → e = "Failed to deploy any agents")
    ∧ (∀ m st' c, deployAgents env st = .ok (m, st', c) → m ≠ [])
    ∧ (∀ r, r ∈ agentInstructionKeys → exOk (env.createAgentSdk r) = true →
        ∃ m st' c, deployAgents env st = .ok (m, st', c) ∧ containsD m r = true)
    ∧ (∀ m0 st1, getExistingAgents env st = .ok (m0, st1) → m0 ≠ [] →
        ∃ m st' c, deployAgents env st = .ok (m, st', c)) := by
  obtain ⟨m0, st1, hge⟩ := getExisting_ok env st hinit htok
  obtain ⟨hci1, _⟩ := getExisting_st env st m0 st1 hge
  have hkeys := getExisting_keys env st m0 st1 hge hnd hsub
  by_cases hn : m0.length = numAgents
  · have hdeq : deployAgents env st = .ok (m0, st1, []) := by
      unfold deployAgents
      rw [hge]
      dsimp only
      rw [if_pos hn]
    have hm0ne : m0 ≠ [] := by
      intro hcon
      rw [hcon] at hn
      simp [numAgents, agentInstructionKeys] at hn
    have hcov := all_roles_of_keys m0 hkeys.1 hkeys.2 hn
    refine ⟨?_, ?_, ?_, ?_⟩
    · intro e he
      rw [hdeq] at he
      exact absurd he (by simp)
    · intro m st' c h
      rw [hdeq] at h
      simp only [Except.ok.injEq, Prod.mk.injEq] at h
      rw [← h.1]
      exact hm0ne
    · intro r hr _
      exact ⟨m0, st1, [], hdeq, hcov r hr⟩
    · intro _ _ _ _
      exact ⟨m0, st1, [], hdeq⟩
  · have hdeq : deployAgents env st
        = (if (provisionAll env m0 agentInstructionKeys).1.isEmpty = true
          then .error "Failed to deploy any agents"
          else .ok ((provisionAll env m0 agentInstructionKeys).1,
            saveAgentIds (provisionAll env m0 agentInstructionKeys).1 (RegSt.mk st1.file true),
            (provisionAll env m0 agentInstructionKeys).2)) := by
      unfold deployAgents
      rw [hge]
      dsimp only
      rw [if_neg hn]
      have hc2 : (if st1.clientInited = true then Except.ok () else env.initClient)
          = Except.ok () := by
        rw [hci1]
        simp
      rw [hc2]
      dsimp only
      rw [htok]
    refine ⟨?_, ?_, ?_, ?_⟩
    · intro e he
      rw [hdeq] at he
      by_cases hemp : (provisionAll env m0 agentInstructionKeys).1.isEmpty = true
      · rw [if_pos hemp] at he
        simp only [Except.error.injEq] at he
        exact he.symm
      · rw [if_neg hemp] at he
        exact absurd he (by simp)
    · intro m st' c h
      rw [hdeq] at h
      by_cases hemp : (provisionAll env m0 agentInstructionKeys).1.isEmpty = true
      · rw [if_pos hemp] at h
        exact absurd h (by simp)
      · rw [if_neg hemp] at h
        simp only [Except.ok.injEq, Prod.mk.injEq] at h
        rw [← h.1]
        intro hcon
        rw [hcon] at hemp
        simp at hemp
    · intro r hr hok
      have hcont := provisionAll_contains_of_ok env agentInstructionKeys m0 r hr hok
      have hne : (provisionAll env m0 agentInstructionKeys).1 ≠ [] := by
        intro hcon
        rw [hcon] at hcont
        simp [containsD, lookupD] at hcont
      have hemp : (provisionAll env m0 agentInstructionKeys).1.isEmpty = false := by
        cases hpr : (provisionAll env m0 agentInstructionKeys).1
        · exact absurd hpr hne
        · rfl
      refine ⟨(provisionAll env m0 agentInstructionKeys).1,
        saveAgentIds (provisionAll env m0 agentInstructionKeys).1 (RegSt.mk st1.file true),
        (provisionAll env m0 agentInstructionKeys).2, ?_, hcont⟩
      rw [hdeq, hemp]
      simp
    · intro m0' st1' hge' hne'
      rw [hge] at hge'
      simp only [Except.ok.injEq, Prod.mk.injEq] at hge'
      obtain ⟨t, ht⟩ := provisionAll_eq_append env agentInstructionKeys m0
      have hne : (provisionAll env m0 agentInstructionKeys).1 ≠ [] := by
        rw [ht]
        intro hcon
        have hm0e : m0 = [] := by
          cases hm : m0
          · rfl
          · rw [hm] at hcon; simp at hcon
        rw [← hge'.1] at hne'
        exact hne' hm0e
      have hemp : (provisionAll env m0 agentInstructionKeys).1.isEmpty = false := by
        cases hpr : (provisionAll env m0 agentInstructionKeys).1
        · exact absurd hpr hne
        · rfl
      refine ⟨(provisionAll env m0 agentInstructionKeys).1,
        saveAgentIds (provisionAll env m0 agentInstructionKeys).1 (RegSt.mk st1.file true),
        (provisionAll env m0 agentInstructionKeys).2, ?_⟩
      rw [hdeq, hemp]
      simp

end SupPay

namespace SupPay

/-- A fully healthy remote environment: everything succeeds, creation returns
`"id_" ++ role`. -/
def envAllOk : RegEnv :=
  ⟨.ok (), fun _ => .ok (), .ok (), .ok [], .ok none,
   fun r => .ok ("id_" ++ r), fun _ => .ok none⟩

/-- The empty registry state (no persisted file, no client). -/
def stFresh : RegSt := ⟨none, false⟩

/-- Witness for C4 (amended) at a concrete input: from a fresh state with a
healthy environment, deployment succeeds and maps the policy role. -/
theorem c4_witness :
    ∃ m st' c, deployAgents envAllOk stFresh = .ok (m, st', c)
      ∧ containsD m "policy_extraction_agent" = true := by
  exact (c4_partial_deploy envAllOk stFresh rfl rfl
      (by simp [loadAgentIds, stFresh, keysD])
      (by simp [loadAgentIds, stFresh, keysD])).2.2.1
    "policy_extraction_agent" (by decide) rfl

/-! ## C3: atomicity of `deploy_agents` — corrected -/

/-- Environment for the C3 counterexample: two persisted roles validate, both
creation paths fail for everything else. -/
def envTwoGood : RegEnv :=
  ⟨.ok (), fun i => if i = "a" || i = "b" then .ok () else .error "gone",
   .ok (), .ok [], .ok none, fun _ => .error "boom", fun _ => .ok none⟩

/-- State for the C3 counterexample: two of the three roles persisted. -/
def stTwoGood : RegSt :=
  ⟨some (some [("policy_extraction_agent", "a"), ("pay_calculation_agent", "b")]), false⟩

/-- C3 counterexample — the analytics role cannot be resolved (both creation
paths fail), yet `deploy_agents` does NOT fail atomically: it completes
successfully with a partial two-role mapping from which the configured analytics
role is absent (its provisioning was attempted, as the ghost list records). -/
theorem c3_counterexample :
    deployAgents envTwoGood stTwoGood
      = .ok ([("policy_extraction_agent", "a"), ("pay_calculation_agent", "b")],
          ⟨some (some [("policy_extraction_agent", "a"), ("pay_calculation_agent", "b")]),
            true⟩,
          ["analytics_agent"])
    ∧ containsD [("policy_extraction_agent", "a"), ("pay_calculation_agent", "b")]
        "analytics_agent" = false
    ∧ agentInstructionKeys.contains "analytics_agent" = true := by
  exact ⟨rfl, rfl, rfl⟩

/-- C3 (amended) — when the shared infrastructure succeeds, the persisted file is
a well-formed role mapping, and provisioning succeeds for every configured role,
`deploy_agents` completes with every configured role mapped to exactly one agent
id (distinct keys); but completion is not atomic in general: when some role
cannot be resolved, a partial mapping is returned rather than raising, as the
counterexample shows. -/
theorem c3_deploy_coverage (env : RegEnv) (st : RegSt)
    (hinit : env.initClient = .ok ()) (htok : env.getToken = .ok ())
    (hcre : ∀ r ∈ agentInstructionKeys, exOk (env.createAgentSdk r) = true)
    (hnd : (keysD (loadAgentIds st)).Nodup)
    (hsub : ∀ k ∈ keysD (loadAgentIds st), k ∈ agentInstructionKeys) :
    ∃ m st' c, deployAgents env st = .ok (m, st', c)
      ∧ (∀ r ∈ agentInstructionKeys, containsD m r = true)
      ∧ (keysD m).Nodup := by
  obtain ⟨m0, st1, hge⟩ := getExisting_ok env st hinit htok
  obtain ⟨hci1, _⟩ := getExisting_st env st m0 st1 hge
  have hkeys := getExisting_keys env st m0 st1 hge hnd hsub
  by_cases hn : m0.length = numAgents
  · have hdeq : deployAgents env st = .ok (m0, st1, []) := by
      unfold deployAgents
      rw [hge]
      dsimp only
      rw [if_pos hn]
    exact ⟨m0, st1, [], hdeq, all_roles_of_keys m0 hkeys.1 hkeys.2 hn, hkeys.1⟩
  · have hdeq : deployAgents env st
        = (if (provisionAll env m0 agentInstructionKeys).1.isEmpty = true
          then .error "Failed to deploy any agents"
          else .ok ((provisionAll env m0 agentInstructionKeys).1,
            saveAgentIds (provisionAll env m0 agentInstructionKeys).1 (RegSt.mk st1.file true),
            (provisionAll env m0 agentInstructionKeys).2)) := by
      unfold deployAgents
      rw [hge]
      dsimp only
      rw [if_neg hn]
      have hc2 : (if st1.clientInited = true then Except.ok () else env.initClient)
          = Except.ok () := by
        rw [hci1]
        simp
      rw [hc2]
      dsimp only
      rw [htok]
    have hcov : ∀ r ∈ agentInstructionKeys,
        containsD (provisionAll env m0 agentInstructionKeys).1 r = true :=
      fun r hr => provisionAll_contains_of_ok env agentInstructionKeys m0 r hr (hcre r hr)
    have hne : (provisionAll env m0 agentInstructionKeys).1 ≠ [] := by
      intro hcon
      have := hcov "policy_extraction_agent" (by decide)
      rw [hcon] at this
      simp [containsD, lookupD] at this
    have hemp : (provisionAll env m0 agentInstructionKeys).1.isEmpty = false := by
      cases hpr : (provisionAll env m0 agentInstructionKeys).1
      · exact absurd hpr hne
      · rfl
    have hprnd : (keysD (provisionAll env m0 agentInstructionKeys).1).Nodup :=
      (provisionAll_keys env agentInstructionKeys m0).1 hkeys.1
    refine ⟨(provisionAll env m0 agentInstructionKeys).1,
      saveAgentIds (provisionAll env m0 agentInstructionKeys).1 (RegSt.mk st1.file true),
      (provisionAll env m0 agentInstructionKeys).2, ?_, hcov, hprnd⟩
    rw [hdeq, hemp]
    simp

/-- Witness for C3 (amended) at a concrete input: with a healthy environment and
a fresh state, all three roles end up mapped. -/
theorem c3_witness :
    ∃ m st' c, deployAgents envAllOk stFresh = .ok (m, st', c)
      ∧ (∀ r ∈ agentInstructionKeys, containsD m r = true)
      ∧ (keysD m).Nodup := by
  exact c3_deploy_coverage envAllOk stFresh rfl rfl (fun r _ => rfl)
    (by simp [loadAgentIds, stFresh, keysD])
    (by simp [loadAgentIds, stFresh, keysD])

/-! ## C8: idempotent deployment -/

/-- C8 — after a first `deploy_agents` call that resolved and persisted ids for
every configured role, a second call (whose per-id validations succeed) resolves
every role from the persisted file, returns the identical mapping and state, and
attempts no remote agent creation (the ghost list of attempted creations is
empty). -/
theorem c8_idempotent_deploy (env1 env2 : RegEnv) (st0 : RegSt) (m : AgentDict)
    (st1 : RegSt) (c1 : List String)
    (h1 : deployAgents env1 st0 = .ok (m, st1, c1))
    (hkeys : keysD m = agentInstructionKeys)
    (hval : ∀ p ∈ m, exOk (env2.getAgent p.2) = true) :
    deployAgents env2 st1 = .ok (m, st1, []) := by
  obtain ⟨hci, hfile, hne⟩ := deploy_ok_st env1 st0 m st1 c1 h1
  have hload : loadAgentIds st1 = m := by simp [loadAgentIds, hfile]
  have hlen : m.length = numAgents := by
    have hc := congrArg List.length hkeys
    simpa [keysD, numAgents] using hc
  have hfilter : m.filter (fun p => exOk (env2.getAgent p.2)) = m :=
    List.filter_eq_self.mpr hval
  have hmemp : m.isEmpty = false := by
    cases hm : m
    · exact absurd hm hne
    · rfl
  have hstmk : RegSt.mk st1.file true = st1 := by
    obtain ⟨f, ci⟩ := st1
    simp only at hci
    subst hci
    rfl
  have hge : getExistingAgents env2 st1 = .ok (m, st1) := by
    unfold getExistingAgents
    have hc2 : (if st1.clientInited = true then Except.ok () else env2.initClient)
        = Except.ok () := by
      rw [hci]
      simp
    rw [hc2]
    dsimp only
    rw [hload, hfilter, hmemp]
    simp only [Bool.false_eq_true, if_false]
    rw [if_neg (by omega : ¬m.length < m.length), if_pos hlen, hstmk]
  unfold deployAgents
  rw [hge]
  dsimp only
  rw [if_pos hlen]

/-- The mapping produced by a first full deployment from `stFresh` with
`envAllOk`. -/
def mFull : AgentDict :=
  [("policy_extraction_agent", "id_policy_extraction_agent"),
   ("pay_calculation_agent", "id_pay_calculation_agent"),
   ("analytics_agent", "id_analytics_agent")]

/-- The registry state after that first deployment. -/
def stFull : RegSt := ⟨some (some mFull), true⟩

/-- Witness for C8 at a concrete input: the second call returns the same mapping
with no creation attempted. -/
theorem c8_witness : deployAgents envAllOk stFull = .ok (mFull, stFull, []) := by
  exact c8_idempotent_deploy envAllOk envAllOk stFresh mFull stFull
    ["policy_extraction_agent", "pay_calculation_agent", "analytics_agent"]
    rfl rfl (fun p _ => rfl)

end SupPay

namespace SupPay

/-! ## C1: the executor always returns a result-or-error dictionary -/

/-- A run dictionary carries exactly one of the keys `result` / `error`. -/
def okErrShape (d : RunDict) : Prop :=
  (∃ v, lookupD d "result" = some v ∧ lookupD d "error" = none)
  ∨ (∃ v, lookupD d "error" = some v ∧ lookupD d "result" = none)

theorem extractResult_shape (tid runId : String) (msgs : List ThreadMsg) :
    okErrShape (extractResult tid runId msgs) := by
  unfold extractResult
  by_cases h1 : msgs.isEmpty = true
  · rw [if_pos h1]
    exact Or.inr ⟨_, rfl, rfl⟩
  · rw [if_neg h1]
    dsimp only
    cases hs : (msgs.filter (fun m => m.role = "assistant" && m.created_at.isSome)).mergeSort
        (fun a b => b.created_at.getD 0 ≤ a.created_at.getD 0) with
    | nil => exact Or.inr ⟨_, rfl, rfl⟩
    | cons last rest =>
      dsimp only
      cases hc : last.content with
      | none => exact Or.inr ⟨_, rfl, rfl⟩
      | some parts =>
        dsimp only
        by_cases hp : parts.isEmpty = true
        · rw [if_pos hp]
          exact Or.inr ⟨_, rfl, rfl⟩
        · rw [if_neg hp]
          cases hf : parts.findSome? (fun p => p.text.bind id) with
          | none => exact Or.inr ⟨_, rfl, rfl⟩
          | some v => exact Or.inl ⟨v, rfl, rfl⟩

theorem runAgentBody_shape (env : ExecEnv) (tid msg : String) (dt : Bool) (d : RunDict)
    (h : runAgentBody env tid msg dt = .ok d) : okErrShape d := by
  unfold runAgentBody at h
  cases hcm : env.createMessage msg with
  | error e =>
    rw [hcm] at h
    exact absurd h (by simp [Bind.bind, Except.bind])
  | ok u =>
    rw [hcm] at h
    simp only [Bind.bind, Except.bind] at h
    cases hcr : env.createRun dt with
    | error e =>
      rw [hcr] at h
      exact absurd h (by simp)
    | ok runId =>
      rw [hcr] at h
      cases hpoll : (pollRun env.getRun).1 with
      | exc e =>
        rw [hpoll] at h
        exact absurd h (by simp)
      | terminalFailure s =>
        rw [hpoll] at h
        simp only [pure, Except.pure, Except.ok.injEq] at h
        rw [← h]
        exact Or.inr ⟨_, rfl, rfl⟩
      | maxRetriesReached =>
        rw [hpoll] at h
        simp only [pure, Except.pure, Except.ok.injEq] at h
        rw [← h]
        exact Or.inr ⟨_, rfl, rfl⟩
      | completed =>
        rw [hpoll] at h
        cases hlm : env.listMessages with
        | error e =>
          rw [hlm] at h
          exact absurd h (by simp)
        | ok msgs =>
          rw [hlm] at h
          simp only [pure, Except.pure, Except.ok.injEq] at h
          rw [← h]
          exact extractResult_shape tid runId msgs

/-- C1 — for every agent id, thread id and message text, both `_run_agent` and
`_run_agent_via_sdk` return a dictionary carrying a `result` key or an `error`
key (never both, never neither): remote-call exceptions at any step are caught
and converted; in particular an unconfigured project client yields the
`AIProjectClient not initialized` error dictionary rather than an exception. -/
theorem c1_run_agent_result_or_error (client : Bool) (env : ExecEnv)
    (tid aid msg : String) (dt : Bool) :
    okErrShape (runAgent client env tid aid msg dt)
    ∧ okErrShape (runAgentViaSdk client env aid msg dt)
    ∧ (client = false →
        lookupD (runAgent client env tid aid msg dt) "error"
            = some "AIProjectClient not initialized"
        ∧ lookupD (runAgentViaSdk client env aid msg dt) "error"
            = some "AIProjectClient not initialized") := by
  cases client with
  | false =>
    refine ⟨Or.inr ⟨_, rfl, rfl⟩, Or.inr ⟨_, rfl, rfl⟩, fun _ => ⟨rfl, rfl⟩⟩
  | true =>
    refine ⟨?_, ?_, fun hcon => absurd hcon (by simp)⟩
    · unfold runAgent
      simp only [Bool.not_true, Bool.false_eq_true, if_false]
      cases hb : runAgentBody env tid msg dt with
      | ok d => exact runAgentBody_shape env tid msg dt d hb
      | error e => exact Or.inr ⟨_, rfl, rfl⟩
    · unfold runAgentViaSdk
      simp only [Bool.not_true, Bool.false_eq_true, if_false]
      cases hct : env.createThread with
      | error e =>
        simp only [Bind.bind, Except.bind, hct]
        exact Or.inr ⟨_, rfl, rfl⟩
      | ok tid2 =>
        simp only [Bind.bind, Except.bind, hct]
        cases hb : runAgentBody env tid2 msg dt with
        | ok d => exact runAgentBody_shape env tid2 msg dt d hb
        | error e => exact Or.inr ⟨_, rfl, rfl⟩

/-- A concrete executor environment whose run completes with one assistant
message. -/
def envRunOk : ExecEnv :=
  ⟨.ok "t1", fun _ => .ok (), fun _ => .ok "r1", fun _ => .ok "completed", .ok (),
   .ok [⟨"assistant", some 5, some [⟨some (some "hi")⟩]⟩]⟩

/-- Witness for C1 at concrete inputs, discharging the `client = false`
hypothesis: the unconfigured-client call returns the fixed error dictionary, and
the shape disjunction holds. -/
theorem c1_witness :
    okErrShape (runAgent false envRunOk "tid" "aid" "hello" false)
    ∧ lookupD (runAgent false envRunOk "tid" "aid" "hello" false) "error"
        = some "AIProjectClient not initialized"
    ∧ okErrShape (runAgent true envRunOk "tid" "aid" "hello" false) := by
  refine ⟨(c1_run_agent_result_or_error false envRunOk "tid" "aid" "hello" false).1,
    ((c1_run_agent_result_or_error false envRunOk "tid" "aid" "hello" false).2.2 rfl).1,
    (c1_run_agent_result_or_error true envRunOk "tid" "aid" "hello" false).1⟩

end SupPay

namespace SupPay

/-! ## C2: poll budget, backoff schedule and the max-retries error -/

/-- The slept delays of a never-terminating poll loop starting from `delay`,
for `fuel` iterations: doubling, capped at 30. -/
def delaySeq : Nat → Nat → List Nat
  | _, 0 => []
  | delay, fuel + 1 => delay :: delaySeq (min (delay * 2) 30) fuel

theorem pollAux_nonterminal (getRun : Nat → Except String String)
    (h : ∀ i, ∃ s, getRun i = .ok s ∧ s ≠ "completed" ∧ isTerminalFailure s = false) :
    ∀ (fuel count delay : Nat),
    pollAux getRun fuel count delay = (.maxRetriesReached, fuel, delaySeq delay fuel) := by
  intro fuel
  induction fuel with
  | zero => intro count delay; rfl
  | succ n ih =>
    intro count delay
    obtain ⟨s, hok, hnc, hnt⟩ := h count
    unfold pollAux
    rw [hok]
    dsimp only
    rw [if_neg hnc, if_neg (by simp [hnt])]
    rw [ih (count + 1) (min (delay * 2) 30)]
    rfl

theorem max_msg_head (r : String) :
    ("Maximum retries reached waiting for run " ++ r ++ " to complete").data.head?
      = some 'M' := by
  rw [String.data_append, String.data_append]
  rfl

theorem fail_msg_head (r s : String) :
    ("Run " ++ r ++ " ended with status: " ++ s).data.head? = some 'R' := by
  rw [String.data_append, String.data_append, String.data_append]
  rfl

/-- C2 — when the remote status never becomes terminal, the poll loop performs
exactly 15 status fetches with slept delays `1, 2, 4, 8, 16, 30, ..., 30`
(doubling, capped at 30), and `_run_agent` returns the structured
"Maximum retries reached" dictionary carrying the thread and run ids — an error
message always distinct from the one produced for a remote-reported
failed/cancelled/expired status — instead of raising. -/
theorem c2_poll_budget (env : ExecEnv) (tid aid msg runId : String) (dt : Bool)
    (hcm : env.createMessage msg = .ok ())
    (hcr : env.createRun dt = .ok runId)
    (hpoll : ∀ i, ∃ s, env.getRun i = .ok s ∧ s ≠ "completed"
      ∧ isTerminalFailure s = false) :
    (pollRun env.getRun).2.1 = 15
    ∧ (pollRun env.getRun).2.2 = [1, 2, 4, 8, 16, 30, 30, 30, 30, 30, 30, 30, 30, 30, 30]
    ∧ runAgent true env tid aid msg dt
        = [("error", "Maximum retries reached waiting for run " ++ runId ++ " to complete"),
           ("thread_id", tid), ("run_id", runId)]
    ∧ (∀ rid s, ("Maximum retries reached waiting for run " ++ runId ++ " to complete")
        ≠ "Run " ++ rid ++ " ended with status: " ++ s) := by
  have hloop := pollAux_nonterminal env.getRun hpoll maxRetries 0 1
  have hrun : pollRun env.getRun = (.maxRetriesReached, 15, delaySeq 1 15) := hloop
  refine ⟨by rw [hrun], by rw [hrun]; rfl, ?_, ?_⟩
  · unfold runAgent runAgentBody
    simp only [Bool.not_true, Bool.false_eq_true, if_false, hcm, hcr, Bind.bind, Except.bind,
      hrun, pure, Except.pure]
  · intro rid s hcon
    have h1 := max_msg_head runId
    rw [hcon, fail_msg_head rid s] at h1
    exact absurd h1 (by decide)

/-- The always-in-progress environment for the C2 witness. -/
def envNeverDone : ExecEnv :=
  ⟨.ok "t1", fun _ => .ok (), fun _ => .ok "r1", fun _ => .ok "in_progress", .ok (),
   .ok []⟩

/-- Witness for C2 at a concrete input: 15 fetches, the capped backoff schedule,
and the max-retries error dictionary. -/
theorem c2_witness :
    (pollRun envNeverDone.getRun).2.1 = 15
    ∧ (pollRun envNeverDone.getRun).2.2
        = [1, 2, 4, 8, 16, 30, 30, 30, 30, 30, 30, 30, 30, 30, 30]
    ∧ runAgent true envNeverDone "tid" "aid" "hello" false
        = [("error", "Maximum retries reached waiting for run r1 to complete"),
           ("thread_id", "tid"), ("run_id", "r1")] := by
  have h := c2_poll_budget envNeverDone "tid" "aid" "hello" "r1" false rfl rfl
    (fun i => ⟨"in_progress", rfl, by decide, rfl⟩)
  exact ⟨h.1, h.2.1, h.2.2.1⟩

end SupPay

namespace SupPay

/-! ## Router lemmas: totality of the fallback and of name normalization -/

theorem kwFallback_mem (q : PyStr) : getFallbackAgentByKeywords q ∈ knownRoles := by
  unfold getFallbackAgentByKeywords
  dsimp only
  split
  · split
    · rename_i p hp
      have hmem := List.mem_of_find?_eq_some hp
      obtain ⟨c, hc, hceq⟩ := List.mem_map.mp hmem
      rw [← hceq]
      dsimp only
      simp only [agentCapabilities, List.mem_cons, List.not_mem_nil, or_false] at hc
      rcases hc with hc | hc | hc <;> rw [hc] <;> decide
    · decide
  · decide

theorem normalize_canonical (r : PyStr) (hr : r ∈ knownRoles) :
    normalizeAgentName (.str r) = .ok r := by
  simp only [knownRoles, List.mem_cons, List.not_mem_nil, or_false] at hr
  rcases hr with h | h | h <;> subst h <;> rfl

theorem lookup_mapping_known (n v : PyStr) (h : lookupD agentNameMapping n = some v) :
    v ∈ knownRoles := by
  have hm := lookupD_eq_some_mem h
  simp only [agentNameMapping, List.mem_cons, List.not_mem_nil, or_false,
    Prod.mk.injEq] at hm
  rcases hm with ⟨_, h2⟩ | ⟨_, h2⟩ | ⟨_, h2⟩ | ⟨_, h2⟩ | ⟨_, h2⟩ | ⟨_, h2⟩ <;>
    rw [h2] <;> decide

theorem find_mapping_known (n : PyStr) (p : PyStr × PyStr)
    (h : agentNameMapping.find?
      (fun p => containsSub n p.1 || containsSub p.1 n) = some p) :
    p.2 ∈ knownRoles := by
  have hm := List.mem_of_find?_eq_some h
  simp only [agentNameMapping, List.mem_cons, List.not_mem_nil, or_false] at hm
  rcases hm with h2 | h2 | h2 | h2 | h2 | h2 <;> rw [h2] <;> decide

theorem normalize_surface_known (s : PyStr)
    (h : pyLower s ∈ keysD agentNameMapping
      ∨ ∃ p ∈ agentNameMapping,
          (containsSub (pyLower s) p.1 || containsSub p.1 (pyLower s)) = true) :
    ∃ r ∈ knownRoles, normalizeAgentName (.str s) = .ok r := by
  by_cases hemp : s.isEmpty = true
  · refine ⟨"policy_extraction_agent".toList, by decide, ?_⟩
    unfold normalizeAgentName
    rw [if_pos (by simpa [jFalsy] using hemp)]
  · have hfalsy : jFalsy (.str s) = false := by
      simp only [jFalsy]
      exact Bool.eq_false_iff.mpr hemp
    unfold normalizeAgentName
    rw [if_neg (by simp [hfalsy])]
    dsimp only
    cases hlook : lookupD agentNameMapping (pyLower s) with
    | some canon =>
      exact ⟨canon, lookup_mapping_known _ _ hlook, rfl⟩
    | none =>
      rcases h with hkey | hex
      · have hsome := lookupD_isSome_of_mem_keys hkey
        rw [hlook] at hsome
        simp at hsome
      · obtain ⟨p0, hf⟩ := find?_some_of_exists hex
        rw [hf]
        exact ⟨p0.2, find_mapping_known _ p0 hf, rfl⟩

theorem normalizeRoutingInfo_fallback (q : PyStr) (ctx : PyStr) :
    normalizeRoutingInfo q (fallbackInfo q ctx) = .ok (fallbackInfo q ctx) := by
  unfold normalizeRoutingInfo
  have hk := normalize_canonical _ (kwFallback_mem q)
  have hlookp : lookupD (fallbackInfo q ctx) "primary_agent".toList
      = some (.str (getFallbackAgentByKeywords q)) := by
    simp [fallbackInfo, lookupD]
  have hsetp : setD (fallbackInfo q ctx) "primary_agent".toList
      (.str (getFallbackAgentByKeywords q)) = fallbackInfo q ctx := by
    simp [fallbackInfo, setD]
  rw [hlookp]
  simp only [Bind.bind, Except.bind, hk, pure, Except.pure, hsetp]
  have hlooks : lookupD (fallbackInfo q ctx) "secondary_agents".toList
      = some (.arr []) := by
    simp [fallbackInfo, lookupD]
  rw [hlooks]
  have hsets : setD (fallbackInfo q ctx) "secondary_agents".toList (.arr []) =
      fallbackInfo q ctx := by
    simp [fallbackInfo, setD]
  simp only [List.mapM_nil, pure, Except.pure, List.map_nil, hsets]

end SupPay

namespace SupPay

/-! ## `analyze_query` evaluation helpers -/

theorem analyzeQuery_hit (llm : Except String PyStr) (decode : PyStr → Option JObj)
    (cache : QCache) (q : PyStr) (info : JObj)
    (hhit : lookupD cache (queryCacheKey q) = some info) :
    analyzeQuery llm decode cache q = (info, cache) := by
  unfold analyzeQuery
  dsimp only
  rw [hhit]

theorem analyzeQuery_llm_error (e : String) (decode : PyStr → Option JObj)
    (cache : QCache) (q : PyStr)
    (hmiss : lookupD cache (queryCacheKey q) = none) :
    analyzeQuery (.error e) decode cache q = (errorFallbackInfo q e, cache) := by
  unfold analyzeQuery
  dsimp only
  rw [hmiss]
  simp only [Bind.bind, Except.bind]

theorem analyzeQuery_ok_of_try (text : PyStr) (decode : PyStr → Option JObj)
    (cache : QCache) (q : PyStr) (info : JObj)
    (hmiss : lookupD cache (queryCacheKey q) = none)
    (htry : tryAnalyze text decode q = .ok info) :
    analyzeQuery (.ok text) decode cache q
      = (info, manageCacheSize (setD cache (queryCacheKey q) info)) := by
  unfold analyzeQuery
  dsimp only
  rw [hmiss]
  simp only [Bind.bind, Except.bind]
  rw [htry]

theorem analyzeQuery_err_of_try (text : PyStr) (decode : PyStr → Option JObj)
    (cache : QCache) (q : PyStr) (e : String)
    (hmiss : lookupD cache (queryCacheKey q) = none)
    (htry : tryAnalyze text decode q = .error e) :
    analyzeQuery (.ok text) decode cache q = (errorFallbackInfo q e, cache) := by
  unfold analyzeQuery
  dsimp only
  rw [hmiss]
  simp only [Bind.bind, Except.bind]
  rw [htry]

theorem lookupD_errorFallback_primary (q : PyStr) (e : String) :
    lookupD (errorFallbackInfo q e) "primary_agent".toList
      = some (.str (getFallbackAgentByKeywords q)) := by
  simp [errorFallbackInfo, lookupD]

theorem lookupD_fallback_primary (q ctx : PyStr) :
    lookupD (fallbackInfo q ctx) "primary_agent".toList
      = some (.str (getFallbackAgentByKeywords q)) := by
  simp [fallbackInfo, lookupD]

theorem normalizeRoutingInfo_arr (q : PyStr) (o : JObj) (v : JVal) (r : PyStr)
    (xs : List JVal)
    (hlookp : lookupD o "primary_agent".toList = some v)
    (hnorm : normalizeAgentName v = .ok r)
    (hsec : lookupD (setD o "primary_agent".toList (.str r)) "secondary_agents".toList
      = some (.arr xs)) :
    normalizeRoutingInfo q o
      = Except.map (fun ns => setD (setD o "primary_agent".toList (.str r))
          "secondary_agents".toList (.arr (ns.map .str))) (xs.mapM normalizeAgentName) := by
  unfold normalizeRoutingInfo
  rw [hlookp]
  simp only [Bind.bind, Except.bind, hnorm, pure, Except.pure]
  rw [hsec]
  dsimp only
  cases hmap : xs.mapM normalizeAgentName <;> rfl

theorem normalizeRoutingInfo_noarr (q : PyStr) (o : JObj) (v : JVal) (r : PyStr)
    (hlookp : lookupD o "primary_agent".toList = some v)
    (hnorm : normalizeAgentName v = .ok r)
    (hsec : ∀ xs, lookupD (setD o "primary_agent".toList (.str r))
      "secondary_agents".toList ≠ some (.arr xs)) :
    normalizeRoutingInfo q o = .ok (setD o "primary_agent".toList (.str r)) := by
  unfold normalizeRoutingInfo
  rw [hlookp]
  simp only [Bind.bind, Except.bind, hnorm, pure, Except.pure]

end SupPay

namespace SupPay

/-! ## C6: routing totality -/

/-- C6 — `analyze_query` always produces a `primary_agent` drawn from the known
role set: on a fresh (uncached) query this holds when the LLM invocation raises
(keyword fallback, conjunct 2), when the returned text contains no JSON object
(keyword fallback, conjunct 3), and when the returned JSON names an agent in a
different surface form — any name whose lowercase form is a key of the alias
table or substring-matches one — which normalization maps back to a canonical
role (conjunct 4); the keyword fallback itself is total (conjunct 1). -/
theorem c6_routing_total (q : PyStr) (cache : QCache)
    (hmiss : lookupD cache (queryCacheKey q) = none) :
    getFallbackAgentByKeywords q ∈ knownRoles
    ∧ (∀ (e : String) (decode : PyStr → Option JObj),
        lookupD (analyzeQuery (.error e) decode cache q).1 "primary_agent".toList
          = some (.str (getFallbackAgentByKeywords q)))
    ∧ (∀ (text : PyStr) (decode : PyStr → Option JObj),
        findCharIdx text (Char.ofNat 123) = none →
        lookupD (analyzeQuery (.ok text) decode cache q).1 "primary_agent".toList
          = some (.str (getFallbackAgentByKeywords q)))
    ∧ (∀ (text : PyStr) (decode : PyStr → Option JObj) (i j : Nat) (o : JObj) (s : PyStr),
        findCharIdx text (Char.ofNat 123) = some i →
        rfindCharIdx text (Char.ofNat 125) = some j →
        i < j →
        decode ((text.drop i).take (j + 1 - i)) = some o →
        lookupD o "primary_agent".toList = some (.str s) →
        (pyLower s ∈ keysD agentNameMapping
          ∨ ∃ p ∈ agentNameMapping,
              (containsSub (pyLower s) p.1 || containsSub p.1 (pyLower s)) = true) →
        ∃ r ∈ knownRoles,
          lookupD (analyzeQuery (.ok text) decode cache q).1 "primary_agent".toList
            = some (.str r)) := by
  refine ⟨kwFallback_mem q, ?_, ?_, ?_⟩
  · intro e decode
    rw [analyzeQuery_llm_error e decode cache q hmiss]
    exact lookupD_errorFallback_primary q e
  · intro text decode hfind
    have hcarve : carveRoutingInfo text decode q
        = fallbackInfo q "Fallback routing used due to missing JSON in response".toList := by
      unfold carveRoutingInfo
      rw [hfind]
    have htry : tryAnalyze text decode q
        = .ok (fallbackInfo q
            "Fallback routing used due to missing JSON in response".toList) := by
      unfold tryAnalyze
      rw [hcarve]
      exact normalizeRoutingInfo_fallback q _
    rw [analyzeQuery_ok_of_try text decode cache q _ hmiss htry]
    exact lookupD_fallback_primary q _
  · intro text decode i j o s hfind hrfind hij hdec hlookp hsurf
    obtain ⟨r, hrk, hnorm⟩ := normalize_surface_known s hsurf
    have hcarve : carveRoutingInfo text decode q = o := by
      unfold carveRoutingInfo
      rw [hfind, hrfind]
      dsimp only
      rw [if_pos hij, hdec]
    have hnepk : "secondary_agents".toList ≠ "primary_agent".toList := by decide
    cases hsec : lookupD (setD o "primary_agent".toList (.str r))
        "secondary_agents".toList with
    | none =>
      have htry : tryAnalyze text decode q
          = .ok (setD o "primary_agent".toList (.str r)) := by
        unfold tryAnalyze
        rw [hcarve]
        exact normalizeRoutingInfo_noarr q o _ r hlookp hnorm
          (fun xs hxs => by rw [hsec] at hxs; exact absurd hxs (by simp))
      rw [analyzeQuery_ok_of_try text decode cache q _ hmiss htry]
      exact ⟨r, hrk, lookupD_setD_self o _ _⟩
    | some v2 =>
      cases v2 with
      | arr xs =>
        have heq := normalizeRoutingInfo_arr q o _ r xs hlookp hnorm hsec
        cases hmap : xs.mapM normalizeAgentName with
        | ok ns =>
          have htry : tryAnalyze text decode q
              = .ok (setD (setD o "primary_agent".toList (.str r))
                  "secondary_agents".toList (.arr (ns.map .str))) := by
            unfold tryAnalyze
            rw [hcarve, heq, hmap]
            rfl
          rw [analyzeQuery_ok_of_try text decode cache q _ hmiss htry]
          refine ⟨r, hrk, ?_⟩
          rw [lookupD_setD_ne _ _ _ _ hnepk]
          exact lookupD_setD_self o _ _
        | error e =>
          have htry : tryAnalyze text decode q = .error e := by
            unfold tryAnalyze
            rw [hcarve, heq, hmap]
            rfl
          rw [analyzeQuery_err_of_try text decode cache q e hmiss htry]
          exact ⟨getFallbackAgentByKeywords q, kwFallback_mem q,
            lookupD_errorFallback_primary q e⟩
      | null =>
        have htry : tryAnalyze text decode q
            = .ok (setD o "primary_agent".toList (.str r)) := by
          unfold tryAnalyze
          rw [hcarve]
          exact normalizeRoutingInfo_noarr q o _ r hlookp hnorm
            (fun xs hxs => by rw [hsec] at hxs; exact absurd hxs (by simp))
        rw [analyzeQuery_ok_of_try text decode cache q _ hmiss htry]
        exact ⟨r, hrk, lookupD_setD_self o _ _⟩
      | bool b =>
        have htry : tryAnalyze text decode q
            = .ok (setD o "primary_agent".toList (.str r)) := by
          unfold tryAnalyze
          rw [hcarve]
          exact normalizeRoutingInfo_noarr q o _ r hlookp hnorm
            (fun xs hxs => by rw [hsec] at hxs; exact absurd hxs (by simp))
        rw [analyzeQuery_ok_of_try text decode cache q _ hmiss htry]
        exact ⟨r, hrk, lookupD_setD_self o _ _⟩
      | num n =>
        have htry : tryAnalyze text decode q
            = .ok (setD o "primary_agent".toList (.str r)) := by
          unfold tryAnalyze
          rw [hcarve]
          exact normalizeRoutingInfo_noarr q o _ r hlookp hnorm
            (fun xs hxs => by rw [hsec] at hxs; exact absurd hxs (by simp))
        rw [analyzeQuery_ok_of_try text decode cache q _ hmiss htry]
        exact ⟨r, hrk, lookupD_setD_self o _ _⟩
      | str t =>
        have htry : tryAnalyze text decode q
            = .ok (setD o "primary_agent".toList (.str r)) := by
          unfold tryAnalyze
          rw [hcarve]
          exact normalizeRoutingInfo_noarr q o _ r hlookp hnorm
            (fun xs hxs => by rw [hsec] at hxs; exact absurd hxs (by simp))
        rw [analyzeQuery_ok_of_try text decode cache q _ hmiss htry]
        exact ⟨r, hrk, lookupD_setD_self o _ _⟩
      | obj fs =>
        have htry : tryAnalyze text decode q
            = .ok (setD o "primary_agent".toList (.str r)) := by
          unfold tryAnalyze
          rw [hcarve]
          exact normalizeRoutingInfo_noarr q o _ r hlookp hnorm
            (fun xs hxs => by rw [hsec] at hxs; exact absurd hxs (by simp))
        rw [analyzeQuery_ok_of_try text decode cache q _ hmiss htry]
        exact ⟨r, hrk, lookupD_setD_self o _ _⟩

/-- Witness for C6 at concrete inputs: conjunct 2 with a raising LLM call and
conjunct 4 with a JSON answer naming the agent in spaced title case. -/
theorem c6_witness :
    lookupD (analyzeQuery (.error "boom") (fun _ => none) []
        "What are standby payment rules?".toList).1 "primary_agent".toList
      = some (.str (getFallbackAgentByKeywords "What are standby payment rules?".toList))
    ∧ ∃ r ∈ knownRoles,
        lookupD (analyzeQuery
            (.ok "x\x7by\x7dz".toList)
            (fun _ => some [("primary_agent".toList, .str "Policy Extraction Agent".toList)])
            [] "hello there".toList).1 "primary_agent".toList
          = some (.str r) := by
  constructor
  · exact (c6_routing_total "What are standby payment rules?".toList [] rfl).2.1
      "boom" (fun _ => none)
  · exact (c6_routing_total "hello there".toList [] rfl).2.2.2
      "x\x7by\x7dz".toList _ 1 3 _ "Policy Extraction Agent".toList
      rfl rfl (by decide) rfl rfl (by decide)

end SupPay

namespace SupPay

/-! ## C7: cache-key equivalence and cache hits — corrected -/

theorem lookup_manage_insert (cache : QCache) (key : PyStr) (info : JObj)
    (hmiss : lookupD cache key = none) :
    lookupD (manageCacheSize (setD cache key info)) key = some info := by
  rw [setD_append_of_none hmiss]
  unfold manageCacheSize
  by_cases hlen : 100 < (cache ++ [(key, info)]).length
  · rw [if_pos hlen]
    have h20 : 20 ≤ cache.length := by
      simp only [List.length_append, List.length_singleton] at hlen
      omega
    rw [List.drop_append_of_le_length h20]
    rw [lookupD_append_of_none
      (lookupD_eq_none_of_sublist (List.drop_sublist 20 cache) hmiss)]
    simp [lookupD]
  · rw [if_neg hlen]
    rw [lookupD_append_of_none hmiss]
    simp [lookupD]

/-- The concrete LLM answer used for the C7 scenario. -/
def llmTextC7 : PyStr := "\x7b\"primary_agent\": \"pay_calculation_agent\"\x7d".toList

/-- A JSON decoder returning the parsed object of `llmTextC7`. -/
def decodeSimple : PyStr → Option JObj :=
  fun _ => some [("primary_agent".toList, JVal.str "pay_calculation_agent".toList)]

/-- C7 counterexample — "Calculate OVERTIME pay!" and "calculate overtime pay"
share a cache key, and the second call does return the cached decision without
invoking the classifier (it equals the first decision even though the second LLM
value would raise); but the returned decision has NO `source` key at all — the
code never tags decisions with `source="cache"`, so the claim is false as
stated. -/
theorem c7_counterexample :
    (analyzeQuery (.error "second call") decodeSimple
        (analyzeQuery (.ok llmTextC7) decodeSimple [] "Calculate OVERTIME pay!".toList).2
        "calculate overtime pay".toList).1
      = (analyzeQuery (.ok llmTextC7) decodeSimple [] "Calculate OVERTIME pay!".toList).1
    ∧ lookupD (analyzeQuery (.error "second call") decodeSimple
        (analyzeQuery (.ok llmTextC7) decodeSimple [] "Calculate OVERTIME pay!".toList).2
        "calculate overtime pay".toList).1 "source".toList = none := by
  exact ⟨rfl, rfl⟩

/-- C7 (amended) — queries with the same token sequence (differing only in
case, punctuation and whitespace runs) share a cache key; and after a first call
whose classifier path completed with decision `info`, a second call on any
equal-token query returns exactly the cached decision and leaves the cache
unchanged, independently of its own LLM and decoder (the classifier is not
consulted); no `source` field is added — the result is the stored dictionary
itself. -/
theorem c7_cache_key_decision :
    (∀ q1 q2 : PyStr, tokensOf q1 = tokensOf q2 → queryCacheKey q1 = queryCacheKey q2)
    ∧ (∀ (cache : QCache) (q1 q2 text : PyStr) (decode : PyStr → Option JObj)
        (info : JObj) (llm2 : Except String PyStr) (decode2 : PyStr → Option JObj),
        lookupD cache (queryCacheKey q1) = none →
        tryAnalyze text decode q1 = .ok info →
        tokensOf q1 = tokensOf q2 →
        analyzeQuery llm2 decode2 (analyzeQuery (.ok text) decode cache q1).2 q2
          = (info, (analyzeQuery (.ok text) decode cache q1).2)) := by
  have hkey : ∀ q1 q2 : PyStr, tokensOf q1 = tokensOf q2 →
      queryCacheKey q1 = queryCacheKey q2 := by
    intro q1 q2 h
    rw [queryCacheKey_eq_joinWords, queryCacheKey_eq_joinWords, h]
  refine ⟨hkey, ?_⟩
  intro cache q1 q2 text decode info llm2 decode2 hmiss htry htok
  have h1 := analyzeQuery_ok_of_try text decode cache q1 info hmiss htry
  rw [h1]
  have hhit : lookupD (manageCacheSize (setD cache (queryCacheKey q1) info))
      (queryCacheKey q2) = some info := by
    rw [← hkey q1 q2 htok]
    exact lookup_manage_insert cache _ info hmiss
  exact analyzeQuery_hit llm2 decode2 _ q2 info hhit

/-- Witness for C7 (amended) at concrete inputs: the second, lowercased query is
served the stored decision even though its own LLM value would raise. -/
theorem c7_witness :
    analyzeQuery (.error "down") decodeSimple
        (analyzeQuery (.ok llmTextC7) decodeSimple [] "Hi there!".toList).2
        "hi there".toList
      = ([("primary_agent".toList, JVal.str "pay_calculation_agent".toList)],
         (analyzeQuery (.ok llmTextC7) decodeSimple [] "Hi there!".toList).2) := by
  exact c7_cache_key_decision.2 [] "Hi there!".toList "hi there".toList llmTextC7
    decodeSimple [("primary_agent".toList, JVal.str "pay_calculation_agent".toList)]
    (.error "down") decodeSimple rfl rfl rfl

/-! ## C10: the error path does not cache -/

/-- C10 — when the LLM invocation raises, `analyze_query` returns the
confidence-0.3 keyword-fallback decision and leaves the cache untouched, so a
repeated identical query misses the cache and consults the classifier again
(conjunct 4 evaluates the repeat against a fresh LLM value); decisions are
cached exactly on the non-raising path (conjunct 5). -/
theorem c10_error_not_cached (q : PyStr) (cache : QCache)
    (decode : PyStr → Option JObj) (e : String)
    (hmiss : lookupD cache (queryCacheKey q) = none) :
    (analyzeQuery (.error e) decode cache q).2 = cache
    ∧ (analyzeQuery (.error e) decode cache q).1 = errorFallbackInfo q e
    ∧ lookupD (errorFallbackInfo q e) "confidence".toList = some (.num (3/10))
    ∧ (∀ (e2 : String) (decode2 : PyStr → Option JObj),
        analyzeQuery (.error e2) decode2 cache q = (errorFallbackInfo q e2, cache))
    ∧ (∀ (text : PyStr) (decode3 : PyStr → Option JObj) (info : JObj),
        tryAnalyze text decode3 q = .ok info →
        lookupD (analyzeQuery (.ok text) decode3 cache q).2 (queryCacheKey q)
          = some info) := by
  refine ⟨?_, ?_, ?_, ?_, ?_⟩
  · rw [analyzeQuery_llm_error e decode cache q hmiss]
  · rw [analyzeQuery_llm_error e decode cache q hmiss]
  · simp [errorFallbackInfo, lookupD]
  · intro e2 decode2
    exact analyzeQuery_llm_error e2 decode2 cache q hmiss
  · intro text decode3 info htry
    rw [analyzeQuery_ok_of_try text decode3 cache q info hmiss htry]
    exact lookup_manage_insert cache _ info hmiss

/-- Witness for C10 at concrete inputs. -/
theorem c10_witness :
    (analyzeQuery (.error "net down") (fun _ => none) [] "analyze trends".toList).2 = []
    ∧ (analyzeQuery (.error "net down") (fun _ => none) [] "analyze trends".toList).1
        = errorFallbackInfo "analyze trends".toList "net down" := by
  have h := c10_error_not_cached "analyze trends".toList [] (fun _ => none) "net down" rfl
  exact ⟨h.1, h.2.1⟩

end SupPay
